import Mathlib

/-!
Verification of the HelixLauncher metadata normalization engine.

This file gives a shallow embedding, in Lean, of the parts of the
`helixlauncher/meta` repository that the verified properties are about:

* the Mojang rule evaluator (`src/mojang.rs`, `rules::evaluate_rules_os_name`),
* the Gradle coordinate parser and formatter (`helix-meta/src/util.rs`),
* the download deduplication ledger (`add_download` in `src/mojang.rs`),
* the native classifier expansion (`process_native` in `src/mojang.rs`),
* the log4j known-issue patcher (`process_version` in `src/mojang.rs`),
* the launch argument token rewriter (`remap_vars` in `src/mojang.rs`),
* the per-library processing loop and the batch index builder
  (`process_version` / `process` in `src/mojang.rs`).

Rust `IndexMap` / `IndexSet` values are embedded as insertion-ordered
association lists / duplicate-free-by-construction lists, machine integers
as `Nat` (no arithmetic is performed on them), and fallible code as
`Except`.  The Maven version-range comparison performed by the external
`maven_version` crate is not part of this repository; it enters the
embedding as an explicit boolean-predicate parameter (`inRange`).
-/

deriving instance DecidableEq for Except

namespace HelixMeta

@[simp]
theorem exceptBindError {ε α β : Type} (e : ε) (f : α → Except ε β) :
    (Except.error e >>= f) = Except.error e := rfl

@[simp]
theorem exceptBindOk {ε α β : Type} (a : α) (f : α → Except ε β) :
    (Except.ok a >>= f) = f a := rfl

@[simp]
theorem exceptPure {ε α : Type} (a : α) : (pure a : Except ε α) = Except.ok a := rfl

/-- `OsName` from `helixlauncher-meta/src/component.rs`. -/
inductive OsName where
  | linux
  | osx
  | windows
deriving DecidableEq, Repr

/-- `RuleAction` from `src/mojang.rs`. -/
inductive RuleAction where
  | allow
  | disallow
deriving DecidableEq, Repr

/-- `OsRule` from `src/mojang.rs`. -/
structure OsRule where
  name : Option OsName
  version : Option String
  arch : Option String
deriving DecidableEq, Repr

/-- `FeaturesRule` from `src/mojang.rs`; only its presence is inspected by the
rule evaluator, but the fields are kept as in the source. -/
structure FeaturesRule where
  is_demo_user : Option Bool
  has_custom_resolution : Option Bool
  has_quick_plays_support : Option Bool
  is_quick_play_singleplayer : Option Bool
  is_quick_play_multiplayer : Option Bool
  is_quick_play_realms : Option Bool
deriving DecidableEq, Repr

/-- `Rule` from `src/mojang.rs`. -/
structure Rule where
  features : Option FeaturesRule
  os : Option OsRule
  action : RuleAction
deriving DecidableEq, Repr

/-- `Rule::is_always_allow` from `src/mojang.rs`. -/
def Rule.is_always_allow (r : Rule) : Bool :=
  match r.action with
  | .allow => r.features.isNone && r.os.isNone
  | _ => false

/-- `rules::Error` from `src/mojang.rs`. -/
inductive RulesError where
  | unsupportedFeature (s : String)
deriving DecidableEq, Repr

/-- One iteration of the inner `for rule in rules` loop of
`rules::evaluate_rules_os_name`: given the current `allow` state for
`current`, either fail, skip the rule (OS name mismatch), or overwrite
`allow` with the rule's action. -/
def evalRuleStep (current : OsName) (allow : Bool) (r : Rule) : Except RulesError Bool :=
  let applyRule : Except RulesError Bool :=
    if r.features.isSome then .error (.unsupportedFeature "features")
    else .ok (match r.action with | .allow => true | .disallow => false)
  match r.os with
  | none => applyRule
  | some os =>
    if os.arch.isSome then .error (.unsupportedFeature "os.arch")
    else if os.version.isSome then .error (.unsupportedFeature "os.version")
    else
      match os.name with
      | none => applyRule
      | some osname => if osname = current then applyRule else .ok allow

/-- The fixed OS universe iterated by `evaluate_rules_os_name`. -/
def osUniverse : List OsName := [.linux, .osx, .windows]

/-- The full inner loop of `evaluate_rules_os_name` for one OS:
`allow` starts `false` and each rule is applied via `evalRuleStep`. -/
def evalAllowForOs (rules : List Rule) (current : OsName) : Except RulesError Bool :=
  rules.foldlM (evalRuleStep current) false

/-- The outer loop of `evaluate_rules_os_name`: for each OS (in order) run the
inner loop and keep the OSes whose final state is allowed. -/
def evaluateForOses (rules : List Rule) : List OsName → Except RulesError (List OsName)
  | [] => .ok []
  | os :: rest =>
    match evalAllowForOs rules os with
    | .error e => .error e
    | .ok allow =>
      match evaluateForOses rules rest with
      | .error e => .error e
      | .ok tail => .ok (if allow then os :: tail else tail)

/-- `rules::evaluate_rules_os_name` from `src/mojang.rs`. -/
def evaluate_rules_os_name (rules : List Rule) : Except RulesError (List OsName) :=
  evaluateForOses rules osUniverse

/-- Spec-side predicate: a rule's OS predicate matches the target OS
(absent predicate, absent OS name, or matching OS name). -/
def ruleMatchesOs (r : Rule) (os : OsName) : Bool :=
  match r.os with
  | none => true
  | some o =>
    match o.name with
    | none => true
    | some n => n = os

/-- Spec-side allowed state for one OS: starts not-allowed, and every matching
rule overwrites the state with its action (later rules override earlier
ones). -/
def specAllowed (rules : List Rule) (os : OsName) : Bool :=
  rules.foldl
    (fun allow r =>
      if ruleMatchesOs r os then (match r.action with | .allow => true | .disallow => false)
      else allow)
    false

/-- A rule is supported when it carries no `os.arch`, no `os.version` and no
`features` predicate. -/
def ruleSupported (r : Rule) : Bool :=
  r.features.isNone &&
    (match r.os with
     | none => true
     | some o => o.arch.isNone && o.version.isNone)

/-- All rules of a list are supported. -/
def rulesSupported (rules : List Rule) : Bool :=
  rules.all ruleSupported

/-- The boolean value a rule's action overwrites the allow state with. -/
def ruleActionBool (r : Rule) : Bool :=
  match r.action with | .allow => true | .disallow => false

theorem evalRuleStep_supported (os : OsName) (allow : Bool) (r : Rule)
    (h : ruleSupported r = true) :
    evalRuleStep os allow r = .ok (if ruleMatchesOs r os then ruleActionBool r else allow) := by
  rcases r with ⟨features, osr, action⟩
  rcases osr with _ | ⟨⟨name, version, arch⟩⟩
  · unfold ruleSupported at h
    simp only [Bool.and_eq_true, Option.isNone_iff_eq_none] at h
    obtain ⟨hf, -⟩ := h
    subst hf
    cases action <;> simp [evalRuleStep, ruleMatchesOs, ruleActionBool]
  · unfold ruleSupported at h
    simp only [Bool.and_eq_true, Option.isNone_iff_eq_none] at h
    obtain ⟨hf, ha, hv⟩ := h
    subst hf; subst ha; subst hv
    rcases name with _ | n
    · cases action <;> simp [evalRuleStep, ruleMatchesOs, ruleActionBool]
    · by_cases hn : n = os <;> cases action <;>
        simp [evalRuleStep, ruleMatchesOs, ruleActionBool, hn]

theorem foldlM_evalRuleStep_supported (os : OsName) (rules : List Rule)
    (h : ∀ r ∈ rules, ruleSupported r = true) (b : Bool) :
    rules.foldlM (evalRuleStep os) b =
      .ok (rules.foldl (fun allow r => if ruleMatchesOs r os then ruleActionBool r else allow) b) := by
  induction rules generalizing b with
  | nil => rfl
  | cons r rs ih =>
    rw [List.foldlM_cons, evalRuleStep_supported os b r (h r (by simp))]
    rw [List.foldl_cons]
    have := ih (fun r hr => h r (by simp [hr]))
    simp only [this]
    rfl

theorem evalAllowForOs_supported (os : OsName) (rules : List Rule)
    (h : rulesSupported rules = true) :
    evalAllowForOs rules os = .ok (specAllowed rules os) := by
  unfold evalAllowForOs specAllowed
  simp only [rulesSupported, List.all_eq_true] at h
  exact foldlM_evalRuleStep_supported os rules h false

theorem evaluateForOses_supported (rules : List Rule)
    (h : rulesSupported rules = true) (oses : List OsName) :
    evaluateForOses rules oses = .ok (oses.filter (specAllowed rules)) := by
  induction oses with
  | nil => rfl
  | cons os rest ih =>
    unfold evaluateForOses
    rw [evalAllowForOs_supported os rules h, ih]
    by_cases hb : specAllowed rules os <;> simp [List.filter_cons, hb]

theorem evalRuleStep_error_cases (os : OsName) (a : Bool) (r : Rule) (e : RulesError)
    (h : evalRuleStep os a r = .error e) :
    (e = .unsupportedFeature "os.arch" ∧ ∃ o, r.os = some o ∧ o.arch.isSome = true) ∨
    (e = .unsupportedFeature "os.version" ∧ ∃ o, r.os = some o ∧ o.version.isSome = true) ∨
    (e = .unsupportedFeature "features" ∧ r.features.isSome = true) := by
  rcases r with ⟨features, osr, action⟩
  rcases osr with _ | ⟨⟨name, version, arch⟩⟩
  · rcases features with _ | f
    · cases action <;> simp [evalRuleStep] at h
    · simp [evalRuleStep] at h
      right; right; exact ⟨h.symm, by simp⟩
  · rcases arch with _ | av
    · rcases version with _ | vv
      · rcases name with _ | n
        · rcases features with _ | f
          · cases action <;> simp [evalRuleStep] at h
          · simp [evalRuleStep] at h
            right; right; exact ⟨h.symm, by simp⟩
        · by_cases hn : n = os
          · rcases features with _ | f
            · cases action <;> simp [evalRuleStep, hn] at h
            · simp [evalRuleStep, hn] at h
              right; right; exact ⟨h.symm, by simp⟩
          · simp [evalRuleStep, hn] at h
      · simp [evalRuleStep] at h
        right; left; exact ⟨h.symm, ⟨name, some vv, none⟩, rfl, by simp⟩
    · simp [evalRuleStep] at h
      left; exact ⟨h.symm, ⟨name, version, some av⟩, rfl, by simp⟩

theorem foldlM_evalRuleStep_error (os : OsName) (rules : List Rule) (e : RulesError) :
    ∀ b, rules.foldlM (evalRuleStep os) b = .error e →
      ∃ r ∈ rules, ∃ a, evalRuleStep os a r = .error e := by
  induction rules with
  | nil =>
    intro b h
    rw [List.foldlM_nil] at h
    cases h
  | cons r rs ih =>
    intro b h
    rcases hs : evalRuleStep os b r with e' | b'
    · rw [List.foldlM_cons, hs, exceptBindError] at h
      exact ⟨r, by simp, b, by rw [hs, h]⟩
    · rw [List.foldlM_cons, hs, exceptBindOk] at h
      obtain ⟨r', hr', a, ha⟩ := ih b' h
      exact ⟨r', by simp [hr'], a, ha⟩

theorem evaluateForOses_error (rules : List Rule) (e : RulesError) :
    ∀ oses, evaluateForOses rules oses = .error e →
      ∃ os, evalAllowForOs rules os = .error e := by
  intro oses
  induction oses with
  | nil => intro h; cases h
  | cons os rest ih =>
    intro h
    unfold evaluateForOses at h
    split at h
    · rename_i e' heq
      cases h
      exact ⟨os, heq⟩
    · rename_i allow heq
      split at h
      · rename_i e' heq2
        cases h
        exact ih heq2
      · cases h

theorem unsupported_rule_stuck (r : Rule) (h : ruleSupported r = false) :
    ∃ os, ∃ e₀, ∀ a, evalRuleStep os a r = .error e₀ := by
  rcases r with ⟨features, osr, action⟩
  unfold ruleSupported at h
  unfold evalRuleStep
  rcases osr with _ | ⟨⟨name, version, arch⟩⟩
  · simp only [Bool.and_eq_true, Option.isNone_iff_eq_none] at h
    rcases hf : features with _ | f
    · rw [hf] at h; simp at h
    · exact ⟨.linux, .unsupportedFeature "features", fun a => by simp [hf]⟩
  · rcases ha : arch with _ | av
    · rcases hv : version with _ | vv
      · rcases hf : features with _ | f
        · rw [ha, hv, hf] at h; simp at h
        · rcases name with _ | n
          · exact ⟨.linux, .unsupportedFeature "features", fun a => by simp [ha, hv, hf]⟩
          · refine ⟨n, .unsupportedFeature "features", fun a => ?_⟩
            simp [ha, hv, hf]
      · exact ⟨.linux, .unsupportedFeature "os.version", fun a => by simp [ha, hv]⟩
    · exact ⟨.linux, .unsupportedFeature "os.arch", fun a => by simp [ha]⟩

theorem foldlM_evalRuleStep_stuck (os : OsName) (rules : List Rule) (r : Rule) (e₀ : RulesError)
    (hmem : r ∈ rules) (hstuck : ∀ a, evalRuleStep os a r = .error e₀) :
    ∀ b, ∃ e, rules.foldlM (evalRuleStep os) b = .error e := by
  induction rules with
  | nil => cases hmem
  | cons x xs ih =>
    intro b
    rcases hs : evalRuleStep os b x with e' | b'
    · exact ⟨e', by rw [List.foldlM_cons, hs, exceptBindError]⟩
    · rcases List.mem_cons.mp hmem with hx | hx
      · subst hx
        rw [hstuck b] at hs
        cases hs
      · obtain ⟨e, he⟩ := ih hx b'
        exact ⟨e, by rw [List.foldlM_cons, hs, exceptBindOk, he]⟩

theorem evaluateForOses_stuck (rules : List Rule) (os : OsName) :
    ∀ oses, os ∈ oses → (∃ e, evalAllowForOs rules os = .error e) →
      ∃ e, evaluateForOses rules oses = .error e := by
  intro oses
  induction oses with
  | nil => intro h; cases h
  | cons x xs ih =>
    intro hmem hstuck
    rcases ha : evalAllowForOs rules x with e' | allow
    · exact ⟨e', by unfold evaluateForOses; rw [ha]⟩
    · rcases List.mem_cons.mp hmem with hx | hx
      · subst hx
        obtain ⟨e, he⟩ := hstuck
        rw [he] at ha
        cases ha
      · obtain ⟨e, he⟩ := ih hx hstuck
        exact ⟨e, by unfold evaluateForOses; rw [ha, he]⟩

/-- C1: for every rule list in which no rule carries an `os.arch`, `os.version`
or `features` predicate, the rule evaluator returns exactly the subset of the
fixed universe `[linux, osx, windows]` whose allowed state — starting
not-allowed and overwritten by every matching rule, later rules overriding
earlier ones — resolves to allowed; and whenever some rule carries one of
those predicates it fails with an unsupported-feature error naming a predicate
actually carried by some rule. -/
theorem evaluate_rules_os_name_spec :
    (∀ rules : List Rule, rulesSupported rules = true →
      evaluate_rules_os_name rules = .ok (osUniverse.filter (specAllowed rules))) ∧
    (∀ rules : List Rule, rulesSupported rules = false →
      ∃ s, evaluate_rules_os_name rules = .error (.unsupportedFeature s) ∧
        ((s = "os.arch" ∧ ∃ r ∈ rules, ∃ o, r.os = some o ∧ o.arch.isSome = true) ∨
         (s = "os.version" ∧ ∃ r ∈ rules, ∃ o, r.os = some o ∧ o.version.isSome = true) ∨
         (s = "features" ∧ ∃ r ∈ rules, r.features.isSome = true))) := by
  constructor
  · intro rules h
    exact evaluateForOses_supported rules h osUniverse
  · intro rules h
    unfold rulesSupported at h
    rw [List.all_eq_false] at h
    obtain ⟨r, hmem, hbad⟩ := h
    rw [Bool.not_eq_true] at hbad
    obtain ⟨os, e₀, hstuck⟩ := unsupported_rule_stuck r hbad
    have hcases : os ∈ osUniverse := by cases os <;> simp [osUniverse]
    obtain ⟨e, he⟩ := evaluateForOses_stuck rules os osUniverse hcases
      (foldlM_evalRuleStep_stuck os rules r e₀ hmem hstuck false)
    obtain ⟨os', he'⟩ := evaluateForOses_error rules e osUniverse he
    obtain ⟨r', hr', a, ha⟩ := foldlM_evalRuleStep_error os' rules e false he'
    rcases evalRuleStep_error_cases os' a r' e ha with ⟨h1, o, ho, hao⟩ | ⟨h1, o, ho, hvo⟩ | ⟨h1, hf⟩
    · subst h1
      exact ⟨"os.arch", he, Or.inl ⟨rfl, r', hr', o, ho, hao⟩⟩
    · subst h1
      exact ⟨"os.version", he, Or.inr (Or.inl ⟨rfl, r', hr', o, ho, hvo⟩)⟩
    · subst h1
      exact ⟨"features", he, Or.inr (Or.inr ⟨rfl, r', hr', hf⟩)⟩

/-- A Linux-only allow rule, used to instantiate the C1 theorem. -/
def wRuleLinuxAllow : Rule :=
  { features := none,
    os := some { name := some .linux, version := none, arch := none },
    action := .allow }

/-- A rule carrying an `os.arch` predicate, used to instantiate the C1
theorem. -/
def wRuleArch : Rule :=
  { features := none,
    os := some { name := none, version := none, arch := some "x86" },
    action := .allow }

/-- Concrete instantiation of `evaluate_rules_os_name_spec`: a single
Linux-only allow rule evaluates to exactly `[linux]`, and a rule carrying an
`os.arch` predicate makes evaluation fail naming a carried predicate. -/
theorem evaluate_rules_os_name_spec_witness :
    (evaluate_rules_os_name [wRuleLinuxAllow] =
      .ok (osUniverse.filter (specAllowed [wRuleLinuxAllow]))) ∧
    (∃ s, evaluate_rules_os_name [wRuleArch] = .error (.unsupportedFeature s) ∧
      ((s = "os.arch" ∧ ∃ r ∈ [wRuleArch], ∃ o, r.os = some o ∧ o.arch.isSome = true) ∨
       (s = "os.version" ∧ ∃ r ∈ [wRuleArch], ∃ o, r.os = some o ∧ o.version.isSome = true) ∨
       (s = "features" ∧ ∃ r ∈ [wRuleArch], r.features.isSome = true))) :=
  ⟨evaluate_rules_os_name_spec.1 _ (by decide),
   evaluate_rules_os_name_spec.2 _ (by decide)⟩

/-! ### Gradle coordinates (`helix-meta/src/util.rs`) -/

/-- `GradleSpecifier` from `helix-meta/src/util.rs`. -/
structure GradleSpecifier where
  group : String
  artifact : String
  version : String
  classifier : Option String
  extension : String
deriving DecidableEq, Repr

/-- `GradleSpecifier::with_classifier`. -/
def GradleSpecifier.with_classifier (g : GradleSpecifier) (classifier : String) :
    GradleSpecifier :=
  { g with classifier := some classifier }

/-- `GradleParseError` from `helix-meta/src/util.rs`. -/
inductive GradleParseError where
  | artifactIdMissing (s : String)
  | versionMissing (s : String)
deriving DecidableEq, Repr

/-- Rust `str::split_once` on a character, on the character-list level:
split at the first occurrence, dropping the separator. -/
def splitOnceList (c : Char) : List Char → Option (List Char × List Char)
  | [] => none
  | x :: xs =>
    if x = c then some ([], xs)
    else (splitOnceList c xs).map (fun p => (x :: p.1, p.2))

/-- Rust `str::split_once` on a character. -/
def splitOnce (s : String) (c : Char) : Option (String × String) :=
  (splitOnceList c s.data).map (fun p => (String.mk p.1, String.mk p.2))

/-- Rust `str::rsplit_once` on a character: split at the last occurrence. -/
def rsplitOnce (s : String) (c : Char) : Option (String × String) :=
  (splitOnceList c s.data.reverse).map
    (fun p => (String.mk p.2.reverse, String.mk p.1.reverse))

/-- `GradleSpecifier::from_str` from `helix-meta/src/util.rs`. -/
def GradleSpecifier.fromStr (s : String) : Except GradleParseError GradleSpecifier :=
  match splitOnce s ':' with
  | none => .error (.artifactIdMissing s)
  | some (group, s1) =>
    match splitOnce s1 ':' with
    | none => .error (.versionMissing s1)
    | some (artifact, s2) =>
      let es : String × String :=
        match rsplitOnce s2 '@' with
        | none => (s2, "jar")
        | some (a, extension) => (a, extension)
      let vc : String × Option String :=
        match splitOnce es.1 ':' with
        | none => (es.1, none)
        | some (version, classifier) => (version, some classifier)
      .ok { group := group, artifact := artifact, version := vc.1,
            classifier := vc.2, extension := es.2 }

/-- `impl Display for GradleSpecifier` from `helix-meta/src/util.rs`:
`group:artifact:version`, then `:classifier` only when a classifier is
present, then `@extension` only when the extension is not `"jar"`. -/
def GradleSpecifier.format (g : GradleSpecifier) : String :=
  g.group ++ ":" ++ g.artifact ++ ":" ++ g.version
    ++ (match g.classifier with | none => "" | some classifier => ":" ++ classifier)
    ++ (if g.extension ≠ "jar" then "@" ++ g.extension else "")

theorem splitOnceList_of_not_mem {c : Char} {l : List Char} (h : c ∉ l) :
    splitOnceList c l = none := by
  induction l with
  | nil => rfl
  | cons x xs ih =>
    unfold splitOnceList
    rw [List.mem_cons, not_or] at h
    rw [if_neg (fun hx => h.1 hx.symm), ih h.2]
    rfl

theorem splitOnceList_append {c : Char} {a b : List Char} (h : c ∉ a) :
    splitOnceList c (a ++ c :: b) = some (a, b) := by
  induction a with
  | nil => simp [splitOnceList]
  | cons x xs ih =>
    rw [List.mem_cons, not_or] at h
    rw [List.cons_append]
    unfold splitOnceList
    rw [if_neg (fun hx => h.1 hx.symm), ih h.2]
    rfl

theorem string_mk_data (s : String) : String.mk s.data = s := rfl

@[simp]
theorem data_mk (l : List Char) : (String.mk l).data = l := rfl

theorem splitOnce_of_shape (a : String) (c : Char) (b : List Char) (h : c ∉ a.data) :
    splitOnce (String.mk (a.data ++ c :: b)) c = some (a, String.mk b) := by
  unfold splitOnce
  rw [data_mk, splitOnceList_append h]
  rfl

theorem splitOnce_of_no_sep (a : String) (c : Char) (h : c ∉ a.data) :
    splitOnce a c = none := by
  unfold splitOnce
  rw [splitOnceList_of_not_mem h]
  rfl

theorem rsplitOnce_of_shape (a : List Char) (c : Char) (b : String) (h : c ∉ b.data) :
    rsplitOnce (String.mk (a ++ c :: b.data)) c = some (String.mk a, b) := by
  unfold rsplitOnce
  rw [data_mk, List.reverse_append, List.reverse_cons, List.append_assoc,
    List.singleton_append,
    splitOnceList_append (by simpa using h)]
  simp

theorem rsplitOnce_of_no_sep (a : String) (c : Char) (h : c ∉ a.data) :
    rsplitOnce a c = none := by
  unfold rsplitOnce
  rw [splitOnceList_of_not_mem (by simpa using h)]
  rfl

/-- A coordinate whose group contains the `:` separator; formatting and
re-parsing it does not round-trip. -/
def roundTripCounterexample : GradleSpecifier :=
  { group := "a:b", artifact := "c", version := "1", classifier := none, extension := "jar" }

/-- C2 counterexample: `parse(format(c)) == c` fails for the coordinate with
group `"a:b"`, artifact `"c"`, version `"1"`, no classifier and extension
`"jar"`: the formatted string `"a:b:c:1"` re-parses with group `"a"`,
artifact `"b"`, version `"c"` and classifier `"1"`. -/
theorem gradle_roundtrip_counterexample :
    GradleSpecifier.fromStr (GradleSpecifier.format roundTripCounterexample) =
      .ok { group := "a", artifact := "b", version := "c", classifier := some "1",
            extension := "jar" } ∧
    GradleSpecifier.fromStr (GradleSpecifier.format roundTripCounterexample) ≠
      .ok roundTripCounterexample := by
  constructor
  · decide
  · decide

/-- C2 amended: for every coordinate whose group, artifact and version contain
no `:` and whose version, classifier and extension contain no `@`,
`parse(format(c)) == c`; and `format` omits the `:classifier` segment exactly
when the classifier is absent and the `@extension` suffix exactly when the
extension is `"jar"`. -/
theorem gradle_roundtrip_amended :
    (∀ g : GradleSpecifier,
      ':' ∉ g.group.data → ':' ∉ g.artifact.data → ':' ∉ g.version.data →
      '@' ∉ g.version.data →
      (∀ cl, g.classifier = some cl → '@' ∉ cl.data) →
      '@' ∉ g.extension.data →
      GradleSpecifier.fromStr (GradleSpecifier.format g) = .ok g) ∧
    (∀ g : GradleSpecifier,
      (g.classifier = none →
        GradleSpecifier.format g =
          g.group ++ ":" ++ g.artifact ++ ":" ++ g.version ++
            (if g.extension ≠ "jar" then "@" ++ g.extension else "")) ∧
      (∀ cl, g.classifier = some cl →
        GradleSpecifier.format g =
          g.group ++ ":" ++ g.artifact ++ ":" ++ g.version ++ ":" ++ cl ++
            (if g.extension ≠ "jar" then "@" ++ g.extension else ""))) := by
  constructor
  · intro g h1 h2 h3 h4 h5 h6
    rcases hcls : g.classifier with _ | cl
    · by_cases hext : g.extension = "jar"
      · have hS : GradleSpecifier.format g =
            String.mk (g.group.data ++ ':' :: (g.artifact.data ++ ':' :: g.version.data)) := by
          apply String.ext
          simp [GradleSpecifier.format, hcls, hext]
        have e1 := splitOnce_of_shape g.group ':' (g.artifact.data ++ ':' :: g.version.data) h1
        have e2 := splitOnce_of_shape g.artifact ':' g.version.data h2
        have e3 := rsplitOnce_of_no_sep (String.mk g.version.data) '@' (by simpa using h4)
        have e4 := splitOnce_of_no_sep (String.mk g.version.data) ':' (by simpa using h3)
        rw [hS]
        simp only [GradleSpecifier.fromStr, e1, e2, e3, e4]
        simp only [string_mk_data]
        rw [← hcls, ← hext]
      · have hS : GradleSpecifier.format g =
            String.mk (g.group.data ++ ':' :: (g.artifact.data ++ ':' ::
              (g.version.data ++ '@' :: g.extension.data))) := by
          apply String.ext
          simp [GradleSpecifier.format, hcls, hext]
        have e1 := splitOnce_of_shape g.group ':'
          (g.artifact.data ++ ':' :: (g.version.data ++ '@' :: g.extension.data)) h1
        have e2 := splitOnce_of_shape g.artifact ':'
          (g.version.data ++ '@' :: g.extension.data) h2
        have e3 := rsplitOnce_of_shape g.version.data '@' g.extension h6
        have e4 := splitOnce_of_no_sep (String.mk g.version.data) ':' (by simpa using h3)
        rw [hS]
        simp only [GradleSpecifier.fromStr, e1, e2, e3, e4]
        simp only [string_mk_data]
        rw [← hcls]
    · by_cases hext : g.extension = "jar"
      · have hS : GradleSpecifier.format g =
            String.mk (g.group.data ++ ':' :: (g.artifact.data ++ ':' ::
              (g.version.data ++ ':' :: cl.data))) := by
          apply String.ext
          simp [GradleSpecifier.format, hcls, hext]
        have e1 := splitOnce_of_shape g.group ':'
          (g.artifact.data ++ ':' :: (g.version.data ++ ':' :: cl.data)) h1
        have e2 := splitOnce_of_shape g.artifact ':' (g.version.data ++ ':' :: cl.data) h2
        have e3 : rsplitOnce (String.mk (g.version.data ++ ':' :: cl.data)) '@' = none := by
          apply rsplitOnce_of_no_sep
          rw [data_mk]
          intro hmem
          rcases List.mem_append.mp hmem with hv | hc
          · exact h4 hv
          · rcases List.mem_cons.mp hc with hch | hcl2
            · cases hch
            · exact h5 cl hcls hcl2
        have e4 := splitOnce_of_shape g.version ':' cl.data h3
        rw [hS]
        simp only [GradleSpecifier.fromStr, e1, e2, e3, e4]
        simp only [string_mk_data]
        rw [← hcls, ← hext]
      · have hS : GradleSpecifier.format g =
            String.mk (g.group.data ++ ':' :: (g.artifact.data ++ ':' ::
              ((g.version.data ++ ':' :: cl.data) ++ '@' :: g.extension.data))) := by
          apply String.ext
          simp [GradleSpecifier.format, hcls, hext]
        have e1 := splitOnce_of_shape g.group ':'
          (g.artifact.data ++ ':' :: ((g.version.data ++ ':' :: cl.data) ++
            '@' :: g.extension.data)) h1
        have e2 := splitOnce_of_shape g.artifact ':'
          ((g.version.data ++ ':' :: cl.data) ++ '@' :: g.extension.data) h2
        have e3 := rsplitOnce_of_shape (g.version.data ++ ':' :: cl.data) '@' g.extension h6
        have e4 := splitOnce_of_shape g.version ':' cl.data h3
        rw [hS]
        simp only [GradleSpecifier.fromStr, e1, e2, e3, e4]
        simp only [string_mk_data]
        rw [← hcls]
  · intro g
    constructor
    · intro hcl
      apply String.ext
      simp [GradleSpecifier.format, hcl]
    · intro cl hcl
      apply String.ext
      simp [GradleSpecifier.format, hcl]

/-- Concrete instantiation of `gradle_roundtrip_amended`: the coordinate
`org.lwjgl:lwjgl:3.3.1:natives-linux@zip` round-trips through format and
parse. -/
theorem gradle_roundtrip_amended_witness :
    GradleSpecifier.fromStr (GradleSpecifier.format
      { group := "org.lwjgl", artifact := "lwjgl", version := "3.3.1",
        classifier := some "natives-linux", extension := "zip" }) =
      .ok { group := "org.lwjgl", artifact := "lwjgl", version := "3.3.1",
            classifier := some "natives-linux", extension := "zip" } :=
  gradle_roundtrip_amended.1 _ (by decide) (by decide) (by decide) (by decide)
    (by intro cl hcl; cases hcl; decide) (by decide)

/-! ### Download deduplication ledger (`add_download` in `src/mojang.rs`) -/

/-- `Hash` from `helixlauncher-meta/src/component.rs`. -/
inductive Hash where
  | sha256 (s : String)
  | sha1 (s : String)
deriving DecidableEq, Repr

/-- `Download` from `helixlauncher-meta/src/component.rs`. -/
structure Download where
  name : GradleSpecifier
  url : String
  size : Nat
  hash : Hash
deriving DecidableEq, Repr

/-- `MojangLibraryArtifact` from `src/mojang.rs`. -/
structure MojangLibraryArtifact where
  path : String
  sha1 : String
  size : Nat
  url : String
deriving DecidableEq, Repr

/-- The `downloads` `IndexMap` of `process_version`, embedded as an
insertion-ordered association list. -/
abbrev DownloadLedger := List (GradleSpecifier × Download)

/-- `IndexMap::contains_key`. -/
def containsKey (l : DownloadLedger) (name : GradleSpecifier) : Bool :=
  l.any (fun p => p.1 = name)

/-- `IndexMap` keyed access (first entry with the key). -/
def lookupKey : DownloadLedger → GradleSpecifier → Option Download
  | [], _ => none
  | p :: rest, name => if p.1 = name then some p.2 else lookupKey rest name

/-- The `Download` record built by `add_download` for a new coordinate. -/
def mkDownload (name : GradleSpecifier) (artifact : MojangLibraryArtifact) : Download :=
  { name := name, url := artifact.url, size := artifact.size, hash := .sha1 artifact.sha1 }

/-- The `add_download` closure of `process_version` in `src/mojang.rs`: if the
coordinate is already present, require the stored hash to be a SHA-1 hash
equal to the new artifact's; otherwise append a new entry at the end
(`IndexMap::insert` keeps insertion order for new keys). -/
def add_download (downloads : DownloadLedger) (name : GradleSpecifier)
    (artifact : MojangLibraryArtifact) : Except String DownloadLedger :=
  match lookupKey downloads name with
  | some existing =>
    match existing.hash with
    | .sha1 sha1 =>
      if sha1 = artifact.sha1 then .ok downloads
      else .error "hash mismatch for existing download"
    | _ => .error "hash mismatch for existing download"
  | none => .ok (downloads ++ [(name, mkDownload name artifact)])

/-- Number of ledger entries stored under a coordinate. -/
def countKey (l : DownloadLedger) (name : GradleSpecifier) : Nat :=
  (l.filter (fun p => p.1 = name)).length

theorem lookupKey_of_not_contains {l : DownloadLedger} {name : GradleSpecifier}
    (h : containsKey l name = false) : lookupKey l name = none := by
  induction l with
  | nil => rfl
  | cons p rest ih =>
    unfold containsKey at h
    rw [List.any_cons] at h
    rw [Bool.or_eq_false_iff] at h
    unfold lookupKey
    rw [if_neg (by simpa using h.1)]
    exact ih h.2

theorem lookupKey_append_last {l : DownloadLedger} {name : GradleSpecifier} {d : Download}
    (h : containsKey l name = false) :
    lookupKey (l ++ [(name, d)]) name = some d := by
  induction l with
  | nil => simp [lookupKey]
  | cons p rest ih =>
    unfold containsKey at h
    rw [List.any_cons, Bool.or_eq_false_iff] at h
    rw [List.cons_append]
    unfold lookupKey
    rw [if_neg (by simpa using h.1)]
    exact ih h.2

theorem countKey_append_last {l : DownloadLedger} {name : GradleSpecifier} {d : Download}
    (h : containsKey l name = false) :
    countKey (l ++ [(name, d)]) name = 1 := by
  induction l with
  | nil => simp [countKey]
  | cons p rest ih =>
    unfold containsKey at h
    rw [List.any_cons, Bool.or_eq_false_iff] at h
    rw [List.cons_append]
    unfold countKey at ih ⊢
    rw [List.filter_cons_of_neg (by simpa using h.1)]
    exact ih h.2

theorem add_download_absent {L : DownloadLedger} {name : GradleSpecifier}
    {a : MojangLibraryArtifact} (h : containsKey L name = false) :
    add_download L name a = .ok (L ++ [(name, mkDownload name a)]) := by
  unfold add_download
  rw [lookupKey_of_not_contains h]

/-- C3: inserting an absent coordinate appends exactly one entry at the end of
the ledger (iteration order is insertion order); re-inserting it with an equal
hash succeeds, leaves the ledger unchanged and keeps exactly one entry for the
coordinate; re-inserting it with a differing hash fails with a consistency
error. -/
theorem add_download_spec :
    (∀ (L : DownloadLedger) (name : GradleSpecifier) (a : MojangLibraryArtifact),
      containsKey L name = false →
      add_download L name a = .ok (L ++ [(name, mkDownload name a)])) ∧
    (∀ (L : DownloadLedger) (name : GradleSpecifier) (a1 a2 : MojangLibraryArtifact),
      containsKey L name = false → a2.sha1 = a1.sha1 →
      add_download (L ++ [(name, mkDownload name a1)]) name a2 =
        .ok (L ++ [(name, mkDownload name a1)]) ∧
      countKey (L ++ [(name, mkDownload name a1)]) name = 1) ∧
    (∀ (L : DownloadLedger) (name : GradleSpecifier) (a1 a2 : MojangLibraryArtifact),
      containsKey L name = false → a2.sha1 ≠ a1.sha1 →
      ∃ e, add_download (L ++ [(name, mkDownload name a1)]) name a2 = .error e) := by
  refine ⟨?_, ?_, ?_⟩
  · intro L name a h
    exact add_download_absent h
  · intro L name a1 a2 h hsha
    constructor
    · unfold add_download
      rw [lookupKey_append_last h]
      simp only [mkDownload]
      rw [if_pos hsha.symm]
    · exact countKey_append_last h
  · intro L name a1 a2 h hsha
    refine ⟨"hash mismatch for existing download", ?_⟩
    unfold add_download
    rw [lookupKey_append_last h]
    simp only [mkDownload]
    rw [if_neg (fun hh => hsha hh.symm)]

/-- A concrete coordinate for instantiating the ledger theorem. -/
def wCoord : GradleSpecifier :=
  { group := "g", artifact := "a", version := "1", classifier := none, extension := "jar" }

/-- Concrete instantiation of `add_download_spec` at an empty ledger and a
concrete artifact: first insert appends, matching re-insert is a no-op with
one entry, mismatching re-insert fails. -/
theorem add_download_spec_witness :
    (add_download [] wCoord
        { path := "p", sha1 := "aa", size := 1, url := "u" } =
      .ok [(wCoord,
        mkDownload wCoord
          { path := "p", sha1 := "aa", size := 1, url := "u" })]) ∧
    (add_download [(wCoord,
        mkDownload wCoord
          { path := "p", sha1 := "aa", size := 1, url := "u" })] wCoord
        { path := "q", sha1 := "aa", size := 2, url := "v" } =
      .ok [(wCoord,
        mkDownload wCoord
          { path := "p", sha1 := "aa", size := 1, url := "u" })]) ∧
    (∃ e, add_download [(wCoord,
        mkDownload wCoord
          { path := "p", sha1 := "aa", size := 1, url := "u" })] wCoord
        { path := "q", sha1 := "bb", size := 2, url := "v" } = .error e) :=
  ⟨add_download_spec.1 [] _ _ (by decide),
   by
     have h := add_download_spec.2.1 [] wCoord
       { path := "p", sha1 := "aa", size := 1, url := "u" }
       { path := "q", sha1 := "aa", size := 2, url := "v" } (by decide) (by decide)
     simpa using h.1,
   by
     have h := add_download_spec.2.2 [] wCoord
       { path := "p", sha1 := "aa", size := 1, url := "u" }
       { path := "q", sha1 := "bb", size := 2, url := "v" } (by decide) (by decide)
     simpa using h⟩

/-! ### Native library resolver (`process_native` in `src/mojang.rs`) -/

/-- Rust `str::contains(char)`. -/
def strContainsChar (s : String) (c : Char) : Bool :=
  s.data.contains c

/-- Helper for Rust `str::contains(&str)`: substring check on character
lists. -/
def listContainsSub (pat : List Char) : List Char → Bool
  | [] => pat.isEmpty
  | x :: xs => pat.isPrefixOf (x :: xs) || listContainsSub pat xs

/-- Rust `str::contains(&str)`. -/
def strContainsSub (s pat : String) : Bool :=
  listContainsSub pat.data s.data

/-- Rust `str::starts_with(&str)`. -/
def strStartsWith (s pre : String) : Bool :=
  pre.data.isPrefixOf s.data

/-- Rust `str::replace(&str, &str)`: replace every non-overlapping occurrence
of `pat` left to right.  The `fuel` parameter bounds recursion depth; every
call site passes the list length, which suffices because every step consumes
at least one character (call sites never pass an empty pattern). -/
def replaceAux : Nat → List Char → List Char → List Char → List Char
  | _, [], _, _ => []
  | 0, s, _, _ => s
  | fuel + 1, c :: cs, pat, rep =>
    if pat.isPrefixOf (c :: cs) then rep ++ replaceAux fuel ((c :: cs).drop pat.length) pat rep
    else c :: replaceAux fuel cs pat rep

/-- Rust `str::replace(&str, &str)` on strings. -/
def strReplace (s pat rep : String) : String :=
  String.mk (replaceAux s.data.length s.data pat.data rep.data)

/-- `Arch` from `helixlauncher-meta/src/component.rs`. -/
inductive Arch where
  | x86
  | x86_64
  | arm64
deriving DecidableEq, Repr

/-- `Platform` from `helixlauncher-meta/src/component.rs`. -/
structure Platform where
  os : List OsName
  arch : Option Arch
deriving DecidableEq, Repr

/-- `Native` from `helixlauncher-meta/src/component.rs`. -/
structure Native where
  name : GradleSpecifier
  platform : Platform
  exclusions : List String
deriving DecidableEq, Repr

/-- `ConditionalClasspathEntry` from `helixlauncher-meta/src/component.rs`. -/
inductive ConditionalClasspathEntry where
  | all (name : GradleSpecifier)
  | platformSpecific (name : GradleSpecifier) (platform : Platform)
deriving DecidableEq, Repr

/-- `Trait` from `helixlauncher-meta/src/component.rs` (plus the variants the
argument-processing path of `src/mojang.rs` inserts). -/
inductive Trait where
  | macStartOnFirstThread
  | supportsCustomResolution
  | supportsQuickPlayWorld
  | supportsQuickPlayServer
deriving DecidableEq, Repr

/-- `MojangNativeExtract` from `src/mojang.rs`. -/
structure MojangNativeExtract where
  exclude : List String
deriving DecidableEq, Repr

/-- `MojangLibraryDownloads` from `src/mojang.rs`; the per-classifier
`IndexMap` is embedded as an insertion-ordered association list. -/
structure MojangLibraryDownloads where
  artifact : Option MojangLibraryArtifact
  classifiers : List (String × MojangLibraryArtifact)
deriving DecidableEq, Repr

/-- `MojangLibrary` from `src/mojang.rs`; the `natives` `IndexMap` is embedded
as an insertion-ordered association list. -/
structure MojangLibrary where
  name : GradleSpecifier
  downloads : MojangLibraryDownloads
  rules : List Rule
  extract : MojangNativeExtract
  natives : List (OsName × String)
deriving DecidableEq, Repr

/-- `IndexMap::get` on the classifier map. -/
def lookupClassifier : List (String × MojangLibraryArtifact) → String →
    Option MojangLibraryArtifact
  | [], _ => none
  | p :: rest, classifier =>
    if p.1 = classifier then some p.2 else lookupClassifier rest classifier

/-- `IndexSet::insert`: append at the end when the element is new, keep the
set unchanged otherwise. -/
def indexSetInsert {α : Type} [DecidableEq α] (s : List α) (x : α) : List α :=
  if x ∈ s then s else s ++ [x]

/-- The `process_native` closure of `process_version` in `src/mojang.rs`:
reject classifiers still containing a `$`, look up the classifier's artifact,
record its download and add a native entry scoped to the single OS with the
given architecture tag. -/
def process_native (libName : GradleSpecifier) (libDownloads : MojangLibraryDownloads)
    (exclude : List String) (downloads : DownloadLedger) (natives : List Native)
    (os : OsName) (classifier : String) (arch : Option Arch) :
    Except String (DownloadLedger × List Native) :=
  if strContainsChar classifier '$' then
    .error ("Unresolved classifier pattern in " ++ classifier)
  else
    match lookupClassifier libDownloads.classifiers classifier with
    | none => .error (classifier ++ " on " ++ libName.format ++ " does not exist")
    | some artifact =>
      match add_download downloads (libName.with_classifier classifier) artifact with
      | .error e => .error e
      | .ok downloads1 =>
        .ok (downloads1,
          indexSetInsert natives
            { name := libName.with_classifier classifier,
              platform := { os := [os], arch := arch }, exclusions := exclude })

/-- The guard of the natives loop of `process_version`: a native entry is only
generated when the computed platform is unconstrained or contains the OS. -/
def platformPermits (platform : Option Platform) (os : OsName) : Bool :=
  match platform with
  | none => true
  | some p => p.os.contains os

/-- One iteration of the `for (os, classifier) in &library.natives` loop of
`process_version`: architecture-templated classifiers expand into a 32-bit
and a 64-bit entry, others into a single untagged entry. -/
def processNativesEntry (library : MojangLibrary) (platform : Option Platform)
    (st : DownloadLedger × List Native) (entry : OsName × String) :
    Except String (DownloadLedger × List Native) :=
  if platformPermits platform entry.1 then
    if strContainsSub entry.2 "$\x7barch\x7d" then
      match process_native library.name library.downloads library.extract.exclude st.1 st.2
          entry.1 (strReplace entry.2 "$\x7barch\x7d" "32") (some .x86) with
      | .error e => .error e
      | .ok st1 =>
        process_native library.name library.downloads library.extract.exclude st1.1 st1.2
          entry.1 (strReplace entry.2 "$\x7barch\x7d" "64") (some .x86_64)
    else
      process_native library.name library.downloads library.extract.exclude st.1 st.2
        entry.1 entry.2 none
  else .ok st

theorem process_native_ok {libName : GradleSpecifier} {libDownloads : MojangLibraryDownloads}
    {exclude : List String} {downloads : DownloadLedger} {natives : List Native} {os : OsName}
    {classifier : String} {arch : Option Arch} {d : DownloadLedger} {n : List Native}
    (h : process_native libName libDownloads exclude downloads natives os classifier arch =
      .ok (d, n)) :
    n = indexSetInsert natives
      { name := libName.with_classifier classifier,
        platform := { os := [os], arch := arch }, exclusions := exclude } := by
  unfold process_native at h
  split at h
  · cases h
  · split at h
    · cases h
    · split at h
      · cases h
      · rw [Except.ok.injEq, Prod.mk.injEq] at h
        exact h.2.symm

/-- C4: for a native classifier processed for an OS the computed platform
permits: an architecture-templated classifier (containing `${arch}`) yields,
from a fresh native set, exactly the two entries with `${arch}` replaced by
`"32"` (tagged x86) and `"64"` (tagged x86_64); a non-templated classifier
yields exactly one entry with no architecture tag; and a resolved classifier
still containing `$` fails with an unresolved-pattern error (both when the
classifier itself contains `$` without being templated and when the
substituted classifier still contains `$`). -/
theorem process_native_spec :
    (∀ (library : MojangLibrary) (platform : Option Platform) (downloads : DownloadLedger)
       (os : OsName) (classifier : String) (d1 : DownloadLedger) (n1 : List Native),
      platformPermits platform os = true →
      strContainsSub classifier "$\x7barch\x7d" = true →
      processNativesEntry library platform (downloads, []) (os, classifier) = .ok (d1, n1) →
      n1 = [{ name := library.name.with_classifier (strReplace classifier "$\x7barch\x7d" "32"),
              platform := { os := [os], arch := some .x86 },
              exclusions := library.extract.exclude },
            { name := library.name.with_classifier (strReplace classifier "$\x7barch\x7d" "64"),
              platform := { os := [os], arch := some .x86_64 },
              exclusions := library.extract.exclude }]) ∧
    (∀ (library : MojangLibrary) (platform : Option Platform) (downloads : DownloadLedger)
       (os : OsName) (classifier : String) (d1 : DownloadLedger) (n1 : List Native),
      platformPermits platform os = true →
      strContainsSub classifier "$\x7barch\x7d" = false →
      processNativesEntry library platform (downloads, []) (os, classifier) = .ok (d1, n1) →
      n1 = [{ name := library.name.with_classifier classifier,
              platform := { os := [os], arch := none },
              exclusions := library.extract.exclude }]) ∧
    (∀ (library : MojangLibrary) (platform : Option Platform) (downloads : DownloadLedger)
       (natives : List Native) (os : OsName) (classifier : String),
      platformPermits platform os = true →
      strContainsSub classifier "$\x7barch\x7d" = false →
      strContainsChar classifier '$' = true →
      processNativesEntry library platform (downloads, natives) (os, classifier) =
        .error ("Unresolved classifier pattern in " ++ classifier)) ∧
    (∀ (library : MojangLibrary) (platform : Option Platform) (downloads : DownloadLedger)
       (natives : List Native) (os : OsName) (classifier : String),
      platformPermits platform os = true →
      strContainsSub classifier "$\x7barch\x7d" = true →
      strContainsChar (strReplace classifier "$\x7barch\x7d" "32") '$' = true →
      processNativesEntry library platform (downloads, natives) (os, classifier) =
        .error ("Unresolved classifier pattern in " ++
          strReplace classifier "$\x7barch\x7d" "32")) := by
  refine ⟨?_, ?_, ?_, ?_⟩
  · intro library platform downloads os classifier d1 n1 hperm hpat h
    unfold processNativesEntry at h
    rw [if_pos hperm, if_pos hpat] at h
    rcases hs : process_native library.name library.downloads library.extract.exclude
        downloads [] os (strReplace classifier "$\x7barch\x7d" "32") (some .x86)
      with e | st1
    · rw [hs] at h; cases h
    · rw [hs] at h
      rcases st1 with ⟨d0, n0⟩
      have h0 := process_native_ok hs
      have h1 := process_native_ok h
      rw [h1, h0]
      simp only [indexSetInsert, List.not_mem_nil, if_neg, List.nil_append,
        List.mem_singleton]
      rw [if_neg]
      · rfl
      · simp
  · intro library platform downloads os classifier d1 n1 hperm hpat h
    unfold processNativesEntry at h
    rw [if_pos hperm, if_neg (by simp [hpat])] at h
    have h1 := process_native_ok h
    rw [h1]
    simp [indexSetInsert]
  · intro library platform downloads natives os classifier hperm hpat hdollar
    unfold processNativesEntry
    rw [if_pos hperm, if_neg (by simp [hpat])]
    unfold process_native
    rw [if_pos hdollar]
  · intro library platform downloads natives os classifier hperm hpat hdollar
    unfold processNativesEntry
    rw [if_pos hperm, if_pos hpat]
    have : process_native library.name library.downloads library.extract.exclude downloads
        natives os (strReplace classifier "$\x7barch\x7d" "32") (some .x86) =
        .error ("Unresolved classifier pattern in " ++
          strReplace classifier "$\x7barch\x7d" "32") := by
      unfold process_native
      rw [if_pos hdollar]
    rw [this]

/-- A concrete LWJGL-style library with templated Windows natives and a plain
Linux native classifier, used to instantiate the C4 theorem. -/
def wNativeLib : MojangLibrary :=
  { name := { group := "org.lwjgl", artifact := "lwjgl", version := "3.3.1",
              classifier := none, extension := "jar" },
    downloads :=
      { artifact := none,
        classifiers :=
          [("natives-windows-32", { path := "p32", sha1 := "h32", size := 1, url := "u32" }),
           ("natives-windows-64", { path := "p64", sha1 := "h64", size := 2, url := "u64" }),
           ("natives-linux", { path := "pl", sha1 := "hl", size := 3, url := "ul" })] },
    rules := [],
    extract := { exclude := ["META-INF/"] },
    natives := [] }

/-- Concrete instantiation of `process_native_spec`: the templated classifier
`natives-windows-$\x7barch\x7d` yields exactly the 32-bit and 64-bit
entries. -/
theorem process_native_spec_witness :
    ([{ name := { group := "org.lwjgl", artifact := "lwjgl", version := "3.3.1",
                  classifier := some "natives-windows-32", extension := "jar" },
        platform := { os := [.windows], arch := some .x86 },
        exclusions := ["META-INF/"] },
      { name := { group := "org.lwjgl", artifact := "lwjgl", version := "3.3.1",
                  classifier := some "natives-windows-64", extension := "jar" },
        platform := { os := [.windows], arch := some .x86_64 },
        exclusions := ["META-INF/"] }] : List Native) =
      [{ name := wNativeLib.name.with_classifier
            (strReplace "natives-windows-$\x7barch\x7d" "$\x7barch\x7d" "32"),
         platform := { os := [.windows], arch := some .x86 },
         exclusions := wNativeLib.extract.exclude },
       { name := wNativeLib.name.with_classifier
            (strReplace "natives-windows-$\x7barch\x7d" "$\x7barch\x7d" "64"),
         platform := { os := [.windows], arch := some .x86_64 },
         exclusions := wNativeLib.extract.exclude }] :=
  process_native_spec.1 wNativeLib none [] .windows "natives-windows-$\x7barch\x7d"
    [({ group := "org.lwjgl", artifact := "lwjgl", version := "3.3.1",
        classifier := some "natives-windows-32", extension := "jar" },
      { name := { group := "org.lwjgl", artifact := "lwjgl", version := "3.3.1",
                  classifier := some "natives-windows-32", extension := "jar" },
        url := "u32", size := 1, hash := .sha1 "h32" }),
     ({ group := "org.lwjgl", artifact := "lwjgl", version := "3.3.1",
        classifier := some "natives-windows-64", extension := "jar" },
      { name := { group := "org.lwjgl", artifact := "lwjgl", version := "3.3.1",
                  classifier := some "natives-windows-64", extension := "jar" },
        url := "u64", size := 2, hash := .sha1 "h64" })]
    [{ name := { group := "org.lwjgl", artifact := "lwjgl", version := "3.3.1",
                 classifier := some "natives-windows-32", extension := "jar" },
       platform := { os := [.windows], arch := some .x86 },
       exclusions := ["META-INF/"] },
     { name := { group := "org.lwjgl", artifact := "lwjgl", version := "3.3.1",
                 classifier := some "natives-windows-64", extension := "jar" },
       platform := { os := [.windows], arch := some .x86_64 },
       exclusions := ["META-INF/"] }]
    (by decide) (by decide) (by decide)

/-! ### Known-issue patcher (log4j rewriting in `process_version`) -/

/-- The `log4j_url` closure of `process_version` in `src/mojang.rs`. -/
def log4j_url (maven module version : String) : String :=
  "https://" ++ maven ++ "/org/apache/logging/log4j/" ++ module ++ "/" ++ version ++
    "/" ++ module ++ "-" ++ version ++ ".jar"

/-- The hardcoded `(artifact, version) -> (sha1, size)` correction table of
`process_version` in `src/mojang.rs`; `none` corresponds to the `todo!` arm. -/
def log4jHashTable (artifact version : String) : Option (String × Nat) :=
  if artifact = "log4j-core" ∧ version = "2.17.0" then
    some ("fe6e7a32c1228884b9691a744f953a55d0dd8ead", 1789339)
  else if artifact = "log4j-slf4j18-impl" ∧ version = "2.17.0" then
    some ("bd7f6c0b9224dd214afb4e684957e2349b529a8d", 21244)
  else if artifact = "log4j-api" ∧ version = "2.17.0" then
    some ("bbd791e9c8c9421e45337c4fe0a10851c086e36c", 301776)
  else if artifact = "log4j-core" ∧ version = "2.0-beta9" then
    some ("db59ef51488f7ea6a2fd1a0bd8d862cf95f02b7a", 677741)
  else if artifact = "log4j-core" ∧ version = "2.0-rc2" then
    some ("4ffd3e05eebaf965199d0b54d3cd8f8e342c9c08", 765649)
  else none

/-- The log4j patching block of `process_version` in `src/mojang.rs`
(lines guarded by `library.name.artifact.contains("log4j")`).

`inRange v` stands for the external Maven-version comparison
`"2.8.0" <= v && v < "2.17.0"` (inclusive-lower, exclusive-upper) performed
via the `maven_version` crate; it is passed in as an oracle parameter.
A version in range is pinned to `"2.17.0"`; `log4j-core` at `2.0-rc2` or
`2.0-beta9` keeps its version; in both cases, when a direct artifact is
present, its URL is rewritten (to `libraries.minecraft.net` when the new
version is `2.17.0`, to `files.helixlauncher.dev/maven` otherwise) and its
hash and size are taken from the correction table, with a missing table entry
being the explicit `todo!` failure.

`patchLog4jChanged` is the `if changed_log4j` rewriting block, with
`version1` the (possibly pinned) new version. -/
def patchLog4jChanged (library : MojangLibrary) (version1 : String) :
    Except String MojangLibrary :=
  match library.downloads.artifact with
  | none => .ok { library with name := { library.name with version := version1 } }
  | some artifact =>
    match log4jHashTable library.name.artifact version1 with
    | none =>
      .error ("not yet implemented: " ++
        (GradleSpecifier.format { library.name with version := version1 }))
    | some hs =>
      .ok { library with
        name := { library.name with version := version1 },
        downloads := { library.downloads with
          artifact := some { artifact with
            url := log4j_url
              (if version1 = "2.17.0" then "libraries.minecraft.net"
               else "files.helixlauncher.dev/maven")
              library.name.artifact version1,
            sha1 := hs.1, size := hs.2 } } }

def patchLog4j (inRange : String → Bool) (library : MojangLibrary) :
    Except String MojangLibrary :=
  if ¬ strContainsSub library.name.artifact "log4j" then .ok library
  else if inRange library.name.version then patchLog4jChanged library "2.17.0"
  else if library.name.artifact = "log4j-core" ∧
      (library.name.version = "2.0-rc2" ∨ library.name.version = "2.0-beta9") then
    patchLog4jChanged library library.name.version
  else .ok library

/-- C5: a `log4j-core` library at version `"2.0-beta9"` (outside the upgrade
range) keeps its version and has its download descriptor rewritten to the
pinned hash `db59ef51488f7ea6a2fd1a0bd8d862cf95f02b7a` and size `677741` (on
the fallback mirror host); a log4j library whose version is in the upgrade
range `[2.8.0, 2.17.0)` is pinned to version `"2.17.0"` with the URL rewritten
to the corrected host and hash/size taken from the hardcoded table; and a
patched combination absent from the table is an explicit unimplemented-case
failure. -/
theorem log4j_patch_spec :
    (∀ (inR : String → Bool) (lib : MojangLibrary) (a : MojangLibraryArtifact),
      lib.name.artifact = "log4j-core" → lib.name.version = "2.0-beta9" →
      inR "2.0-beta9" = false → lib.downloads.artifact = some a →
      patchLog4j inR lib = .ok { lib with
        downloads := { lib.downloads with
          artifact := some { a with
            url := log4j_url "files.helixlauncher.dev/maven" "log4j-core" "2.0-beta9",
            sha1 := "db59ef51488f7ea6a2fd1a0bd8d862cf95f02b7a", size := 677741 } } }) ∧
    (∀ (inR : String → Bool) (lib : MojangLibrary) (a : MojangLibraryArtifact)
       (h : String) (s : Nat),
      strContainsSub lib.name.artifact "log4j" = true →
      inR lib.name.version = true →
      lib.downloads.artifact = some a →
      log4jHashTable lib.name.artifact "2.17.0" = some (h, s) →
      patchLog4j inR lib = .ok { lib with
        name := { lib.name with version := "2.17.0" },
        downloads := { lib.downloads with
          artifact := some { a with
            url := log4j_url "libraries.minecraft.net" lib.name.artifact "2.17.0",
            sha1 := h, size := s } } }) ∧
    (∀ (inR : String → Bool) (lib : MojangLibrary) (a : MojangLibraryArtifact),
      strContainsSub lib.name.artifact "log4j" = true →
      inR lib.name.version = true →
      lib.downloads.artifact = some a →
      log4jHashTable lib.name.artifact "2.17.0" = none →
      ∃ e, patchLog4j inR lib = .error e) := by
  refine ⟨?_, ?_, ?_⟩
  · intro inR lib a hart hver hr hdl
    simp +decide [patchLog4j, patchLog4jChanged, hart, hver, hr, hdl, log4jHashTable, log4j_url]
    rw [← hart, ← hver]
  · intro inR lib a h s hart hr hdl htab
    simp +decide [patchLog4j, patchLog4jChanged, hart, hr, hdl, htab, log4j_url]
  · intro inR lib a hart hr hdl htab
    exact ⟨"not yet implemented: " ++
        (GradleSpecifier.format { lib.name with version := "2.17.0" }),
      by simp +decide [patchLog4j, patchLog4jChanged, hart, hr, hdl, htab]⟩

/-- A concrete `log4j-core` 2.0-beta9 library, used to instantiate the C5
theorem. -/
def wLog4jCore : MojangLibrary :=
  { name := { group := "org.apache.logging.log4j", artifact := "log4j-core",
              version := "2.0-beta9", classifier := none, extension := "jar" },
    downloads := { artifact := some { path := "p", sha1 := "old", size := 0, url := "old-url" },
                   classifiers := [] },
    rules := [],
    extract := { exclude := [] },
    natives := [] }

/-- Concrete instantiation of `log4j_patch_spec`: patching the
`log4j-core` 2.0-beta9 library rewrites its descriptor to the pinned hash and
size. -/
theorem log4j_patch_spec_witness :
    patchLog4j (fun _ => false) wLog4jCore = .ok { wLog4jCore with
      downloads := { wLog4jCore.downloads with
        artifact := some { path := "p",
                           sha1 := "db59ef51488f7ea6a2fd1a0bd8d862cf95f02b7a",
                           size := 677741,
                           url := log4j_url "files.helixlauncher.dev/maven"
                             "log4j-core" "2.0-beta9" } } } :=
  log4j_patch_spec.1 (fun _ => false) wLog4jCore
    { path := "p", sha1 := "old", size := 0, url := "old-url" } rfl rfl rfl rfl

/-! ### Argument template rewriter (`remap_vars` in `src/mojang.rs`) -/

/-- `VersionType` from `src/mojang.rs`. -/
inductive VersionType where
  | experiment
  | snapshot
  | release
  | oldBeta
  | oldAlpha
deriving DecidableEq, Repr

/-- `VersionType::as_str` from `src/mojang.rs`. -/
def VersionType.as_str : VersionType → String
  | .experiment => "experiment"
  | .snapshot => "snapshot"
  | .release => "release"
  | .oldBeta => "old_beta"
  | .oldAlpha => "old_alpha"

/-- The character class of the `VAR_PATTERN` regex `[a-zA-Z0-9_]`. -/
def isWordChar (c : Char) : Bool :=
  ('a' ≤ c && c ≤ 'z') || ('A' ≤ c && c ≤ 'Z') || ('0' ≤ c && c ≤ '9') || c = '_'

/-- The fixed substitution table of `remap_vars` in `src/mojang.rs`, keyed by
the placeholder name (the regex capture without the surrounding `$` braces);
`none` corresponds to the `panic!` arm. -/
def lookupVar (name : String) (vt : VersionType) : Option String :=
  match name with
  | "auth_access_token" => some "$\x7buser.token\x7d"
  | "auth_player_name" => some "$\x7buser.name\x7d"
  | "version_name" => some "$\x7binstance.minecraft_version\x7d"
  | "game_directory" => some "$\x7binstance.game_dir\x7d"
  | "assets_root" => some "$\x7binstance.assets_dir\x7d"
  | "assets_index_name" => some "$\x7binstance.assets_index_name\x7d"
  | "auth_uuid" => some "$\x7buser.uuid\x7d"
  | "clientid" => some ""
  | "auth_xuid" => some ""
  | "auth_session" => some "$\x7buser.token\x7d"
  | "user_type" => some "$\x7buser.type\x7d"
  | "version_type" => some vt.as_str
  | "resolution_width" => some "$\x7bwindow.width\x7d"
  | "resolution_height" => some "$\x7bwindow.height\x7d"
  | "user_properties" => some "\x7b\x7d"
  | "game_assets" => some "$\x7binstance.virtual_assets_dir\x7d"
  | "quickPlaySingleplayer" => some "$\x7blaunch.world\x7d"
  | "quickPlayMultiplayer" => some "$\x7blaunch.server\x7d"
  | _ => none

/-- The scanning loop of `Regex::replace_all` with the pattern
`(\$\x7b[a-zA-Z0-9_]+\x7d)` and the `remap_vars` replacement closure: at a
position starting a well-formed placeholder, replace it via `lookupVar`
(an unknown name is the `panic!`, modelled as `none`); at any other position
emit the character and continue.  `fuel` bounds recursion depth; every call
site passes the list length, which suffices because every step consumes at
least one character. -/
def remapScanAux (vt : VersionType) : Nat → List Char → Option (List Char)
  | _, [] => some []
  | 0, _ :: _ => none
  | fuel + 1, '$' :: '{' :: rest =>
    match rest.dropWhile isWordChar with
    | '}' :: tail =>
      if (rest.takeWhile isWordChar).isEmpty then
        (remapScanAux vt fuel ('{' :: rest)).map (fun out => '$' :: out)
      else
        match lookupVar (String.mk (rest.takeWhile isWordChar)) vt with
        | some rep => (remapScanAux vt fuel tail).map (fun out => rep.data ++ out)
        | none => none
    | _ => (remapScanAux vt fuel ('{' :: rest)).map (fun out => '$' :: out)
  | fuel + 1, c :: cs => (remapScanAux vt fuel cs).map (fun out => c :: out)

/-- `remap_vars` from `src/mojang.rs` (for one argument token string): the
regex pass over the whole string, failing when an unknown placeholder is
found, with the panic message `"\x7b\x7d not supported"` formatted with the
whole input. -/
def remap_vars (s : String) (vt : VersionType) : Except String String :=
  match remapScanAux vt s.data.length s.data with
  | some out => .ok (String.mk out)
  | none => .error (s ++ " not supported")

theorem takeWhile_append_stop {p : Char → Bool} {name : List Char} {c : Char}
    {tail : List Char} (h : ∀ x ∈ name, p x = true) (hc : p c = false) :
    (name ++ c :: tail).takeWhile p = name := by
  induction name with
  | nil => simp [List.takeWhile, hc]
  | cons x xs ih =>
    rw [List.cons_append, List.takeWhile_cons, h x (by simp)]
    simp only [if_true]
    rw [ih (fun y hy => h y (by simp [hy]))]

theorem dropWhile_append_stop {p : Char → Bool} {name : List Char} {c : Char}
    {tail : List Char} (h : ∀ x ∈ name, p x = true) (hc : p c = false) :
    (name ++ c :: tail).dropWhile p = c :: tail := by
  induction name with
  | nil => simp [List.dropWhile, hc]
  | cons x xs ih =>
    rw [List.cons_append, List.dropWhile_cons, h x (by simp)]
    simp only [if_true]
    exact ih (fun y hy => h y (by simp [hy]))

theorem remapScanAux_token (vt : VersionType) (name : List Char)
    (h1 : name ≠ []) (h2 : ∀ c ∈ name, isWordChar c = true) :
    remapScanAux vt (name.length + 3) ('$' :: '{' :: (name ++ ['}'])) =
      match lookupVar (String.mk name) vt with
      | some rep => some rep.data
      | none => none := by
  have hbrace : isWordChar '}' = false := by decide
  have htake : (name ++ '}' :: ([] : List Char)).takeWhile isWordChar = name :=
    takeWhile_append_stop h2 hbrace
  have hdrop : (name ++ '}' :: ([] : List Char)).dropWhile isWordChar = '}' :: [] :=
    dropWhile_append_stop h2 hbrace
  show remapScanAux vt (name.length + 2 + 1) ('$' :: '{' :: (name ++ ['}'])) = _
  simp only [remapScanAux, hdrop, htake]
  rw [if_neg (by simp [h1])]
  rcases hv : lookupVar (String.mk name) vt with _ | rep
  · rfl
  · simp [remapScanAux]

/-- C6: rewriting a single `$\x7bname\x7d` placeholder token replaces it with
the target launcher's placeholder from the fixed substitution table when the
name is in the table, and fails fatally with a `not supported` error naming
the token otherwise; in particular `auth_player_name` becomes the canonical
user-name placeholder, the two legacy tokens `clientid` and `auth_xuid`
become the empty string, and `totally_unknown` is a failure rather than a
pass-through. -/
theorem remap_vars_spec :
    (∀ (vt : VersionType) (name : List Char) (rep : String),
      name ≠ [] → (∀ c ∈ name, isWordChar c = true) →
      lookupVar (String.mk name) vt = some rep →
      remap_vars (String.mk ('$' :: '{' :: (name ++ ['}']))) vt = .ok rep) ∧
    (∀ (vt : VersionType) (name : List Char),
      name ≠ [] → (∀ c ∈ name, isWordChar c = true) →
      lookupVar (String.mk name) vt = none →
      remap_vars (String.mk ('$' :: '{' :: (name ++ ['}']))) vt =
        .error (String.mk ('$' :: '{' :: (name ++ ['}'])) ++ " not supported")) ∧
    (∀ vt, remap_vars "$\x7bauth_player_name\x7d" vt = .ok "$\x7buser.name\x7d") ∧
    (∀ vt, remap_vars "$\x7bclientid\x7d" vt = .ok "" ∧
      remap_vars "$\x7bauth_xuid\x7d" vt = .ok "") ∧
    (∀ vt, remap_vars "$\x7btotally_unknown\x7d" vt =
      .error "$\x7btotally_unknown\x7d not supported") := by
  have hlen : ∀ name : List Char,
      (String.mk ('$' :: '{' :: (name ++ ['}']))).data.length = name.length + 3 := by
    intro name
    simp [data_mk]
  refine ⟨?_, ?_, ?_, ?_, ?_⟩
  · intro vt name rep h1 h2 hv
    unfold remap_vars
    rw [hlen name, data_mk, remapScanAux_token vt name h1 h2, hv]
  · intro vt name h1 h2 hv
    unfold remap_vars
    rw [hlen name, data_mk, remapScanAux_token vt name h1 h2, hv]
  · intro vt; cases vt <;> decide
  · intro vt; cases vt <;> exact ⟨by decide, by decide⟩
  · intro vt; cases vt <;> decide

/-- Concrete instantiation of `remap_vars_spec`: the `auth_uuid` token is
rewritten from the table and the unknown `totally_unknown` token fails. -/
theorem remap_vars_spec_witness :
    remap_vars (String.mk ('$' :: '{' ::
        (['a', 'u', 't', 'h', '_', 'u', 'u', 'i', 'd'] ++ ['}']))) .release =
      .ok "$\x7buser.uuid\x7d" ∧
    remap_vars (String.mk ('$' :: '{' ::
        (['b', 'a', 'd'] ++ ['}']))) .release =
      .error (String.mk ('$' :: '{' :: (['b', 'a', 'd'] ++ ['}'])) ++ " not supported") :=
  ⟨remap_vars_spec.1 .release ['a', 'u', 't', 'h', '_', 'u', 'u', 'i', 'd']
      "$\x7buser.uuid\x7d" (by decide) (by decide) (by decide),
   remap_vars_spec.2.1 .release ['b', 'a', 'd'] (by decide) (by decide) (by decide)⟩

/-! ### The per-library processing loop of `process_version` -/

/-- The rule-shape `ensure!` of `process_version` (`src/mojang.rs`):
`rules.len() <= 1 || (rules[0].is_always_allow() && rules.len() <= 2)`. -/
def rulesShapeOk (rules : List Rule) : Bool :=
  decide (rules.length ≤ 1) ||
    ((match rules with | r :: _ => r.is_always_allow | [] => false) &&
      decide (rules.length ≤ 2))

/-- `library.name.group.starts_with("org.lwjgl")`. -/
def isLwjglGroup (lib : MojangLibrary) : Bool :=
  strStartsWith lib.name.group "org.lwjgl"

/-- The first LWJGL carve-out condition of `process_version`: a rule list of
length two whose first rule is an unconditional allow and whose second rule is
a disallow naming an OS (`ignore_rules`). -/
def lwjglIgnoreCond (rules : List Rule) : Bool :=
  match rules with
  | [r0, r1] =>
    r0.is_always_allow &&
      (match r1.action with | .disallow => true | _ => false) &&
      (match r1.os with | some os => os.name.isSome | none => false)
  | _ => false

/-- `matches!(&library.name.classifier, Some(classifier) if
classifier.contains("natives"))`. -/
def classifierContainsNatives (lib : MojangLibrary) : Bool :=
  match lib.name.classifier with
  | some classifier => strContainsSub classifier "natives"
  | none => false

/-- The second LWJGL carve-out condition of `process_version`: a single allow
rule naming an OS on a library whose own classifier is not a natives
classifier (the `continue`). -/
def lwjglSkipCond (lib : MojangLibrary) : Bool :=
  match lib.rules with
  | [r0] =>
    (match r0.action with | .allow => true | _ => false) &&
      (match r0.os with | some os => os.name.isSome | none => false) &&
      !(classifierContainsNatives lib)
  | _ => false

/-- The platform computation of `process_version`: no platform when rules are
ignored or absent, otherwise the evaluated OS list (with the error wrapped in
the `with_context` message). -/
def computePlatform (ignore_rules : Bool) (lib : MojangLibrary) :
    Except String (Option Platform) :=
  if ignore_rules || lib.rules.isEmpty then .ok none
  else
    match evaluate_rules_os_name lib.rules with
    | .ok os => .ok (some { os := os, arch := none })
    | .error (.unsupportedFeature s) =>
      .error ("Rules for \"" ++ lib.name.format ++ "\" failed to evaluate: " ++
        "Unsupported feature: " ++ s)

/-- The direct-artifact handling of `process_version`: record the download and
insert the classpath entry (unconditional without a platform, scoped
otherwise). -/
def addArtifact (downloads : DownloadLedger) (classpath : List ConditionalClasspathEntry)
    (lib : MojangLibrary) (platform : Option Platform) :
    Except String (DownloadLedger × List ConditionalClasspathEntry) :=
  match lib.downloads.artifact with
  | none => .ok (downloads, classpath)
  | some artifact =>
    match add_download downloads lib.name artifact with
    | .error e => .error e
    | .ok downloads1 =>
      .ok (downloads1,
        indexSetInsert classpath
          (match platform with
           | none => .all lib.name
           | some p => .platformSpecific lib.name p))

/-- The mutable state of the library loop of `process_version`. -/
structure ProcState where
  classpath : List ConditionalClasspathEntry
  natives : List Native
  downloads : DownloadLedger
  is_lwjgl3 : Bool
deriving DecidableEq, Repr

/-- One iteration of the `for library in &mut version.libraries` loop of
`process_version` (`src/mojang.rs`): rule-shape check, log4j patching, LWJGL
carve-outs, platform computation, classpath/download recording, and native
expansion. -/
def processLibrary (inRange : String → Bool) (st : ProcState) (library0 : MojangLibrary) :
    Except String ProcState :=
  if rulesShapeOk library0.rules = false then .error "Multiple rules not handled currently"
  else
    match patchLog4j inRange library0 with
    | .error e => .error e
    | .ok library =>
      if isLwjglGroup library && lwjglSkipCond library then
        .ok { st with is_lwjgl3 := st.is_lwjgl3 ||
          (isLwjglGroup library && strStartsWith library.name.version "3.") }
      else
        match computePlatform (isLwjglGroup library && lwjglIgnoreCond library.rules)
            library with
        | .error e => .error e
        | .ok platform =>
          match addArtifact st.downloads st.classpath library platform with
          | .error e => .error e
          | .ok (downloads1, classpath1) =>
            match library.natives.foldlM (processNativesEntry library platform)
                (downloads1, st.natives) with
            | .error e => .error e
            | .ok (downloads2, natives2) =>
              .ok { classpath := classpath1, natives := natives2,
                    downloads := downloads2,
                    is_lwjgl3 := st.is_lwjgl3 ||
                      (isLwjglGroup library && strStartsWith library.name.version "3.") }

/-- The whole library loop of `process_version`. -/
def processLibraries (inRange : String → Bool) (st : ProcState)
    (libs : List MojangLibrary) : Except String ProcState :=
  libs.foldlM (processLibrary inRange) st

/-- The trait set built from the `is_lwjgl3` flag after the library loop
(`traits` starts empty and gains `MacStartOnFirstThread` exactly when
`is_lwjgl3` is set). -/
def componentTraits (is_lwjgl3 : Bool) : List Trait :=
  if is_lwjgl3 then [Trait.macStartOnFirstThread] else []

/-- C7: the library-classpath path accepts a rule list exactly when it has
length at most one, or length exactly two with an unconditional Allow (no OS
and no feature predicate) first; any other shape makes the library processing
fail with the "Multiple rules not handled" error. -/
theorem rules_shape_spec :
    (∀ rules : List Rule, rulesShapeOk rules = true ↔
      (rules.length ≤ 1 ∨
        ∃ r0 r1, rules = [r0, r1] ∧ r0.action = .allow ∧ r0.os = none ∧
          r0.features = none)) ∧
    (∀ (inR : String → Bool) (st : ProcState) (lib : MojangLibrary),
      rulesShapeOk lib.rules = false →
      processLibrary inR st lib = .error "Multiple rules not handled currently") := by
  constructor
  · intro rules
    match rules with
    | [] => simp [rulesShapeOk]
    | [r] => simp [rulesShapeOk]
    | [r0, r1] =>
      rcases r0 with ⟨features, os, action⟩
      constructor
      · intro h
        simp only [rulesShapeOk, List.length_cons, List.length_nil] at h
        rcases action with _ | _
        · rcases features with _ | f
          · rcases os with _ | o
            · exact Or.inr ⟨_, r1, rfl, rfl, rfl, rfl⟩
            · simp [Rule.is_always_allow] at h
          · simp [Rule.is_always_allow] at h
        · simp [Rule.is_always_allow] at h
      · intro h
        rcases h with h | ⟨r0x, r1x, heq, ha, ho, hf⟩
        · simp at h
        · rw [List.cons.injEq] at heq
          rw [List.cons.injEq] at heq
          obtain ⟨h0, h1, -⟩ := heq
          cases h0
          cases h1
          cases ha; cases ho; cases hf
          simp [rulesShapeOk, Rule.is_always_allow]
    | r0 :: r1 :: r2 :: rest =>
      constructor
      · intro h
        unfold rulesShapeOk at h
        simp only [List.length_cons, Bool.or_eq_true, Bool.and_eq_true,
          decide_eq_true_eq] at h
        rcases h with h | ⟨-, h⟩ <;> omega
      · intro h
        rcases h with h | ⟨r0x, r1x, heq, -⟩
        · simp only [List.length_cons] at h
          omega
        · simp at heq

  · intro inR st lib h
    unfold processLibrary
    rw [h]
    rfl

/-- Concrete instantiation of `rules_shape_spec`: the empty rule list is
accepted, and a three-rule list makes processing fail with the
"Multiple rules not handled" error. -/
theorem rules_shape_spec_witness :
    (rulesShapeOk [] = true ↔
      (([] : List Rule).length ≤ 1 ∨
        ∃ r0 r1, ([] : List Rule) = [r0, r1] ∧ r0.action = .allow ∧ r0.os = none ∧
          r0.features = none)) ∧
    processLibrary (fun _ => false)
        { classpath := [], natives := [], downloads := [], is_lwjgl3 := false }
        { wNativeLib with rules := [wRuleLinuxAllow, wRuleLinuxAllow, wRuleLinuxAllow] } =
      .error "Multiple rules not handled currently" :=
  ⟨rules_shape_spec.1 [],
   rules_shape_spec.2 (fun _ => false) _ _ (by decide)⟩

theorem patchLog4j_not_log4j (inR : String → Bool) (lib : MojangLibrary)
    (h : strContainsSub lib.name.artifact "log4j" = false) :
    patchLog4j inR lib = .ok lib := by
  unfold patchLog4j
  rw [if_pos (by simp [h])]

theorem lwjglIgnoreCond_iff (rules : List Rule) :
    lwjglIgnoreCond rules = true ↔
      ∃ r0 r1, rules = [r0, r1] ∧ r0.is_always_allow = true ∧ r1.action = .disallow ∧
        ∃ o, r1.os = some o ∧ o.name.isSome = true := by
  match rules with
  | [] =>
    constructor
    · intro h; cases h
    · rintro ⟨_, _, heq, -⟩; simp at heq
  | [r] =>
    constructor
    · intro h; cases h
    · rintro ⟨_, _, heq, -⟩; simp at heq
  | [r0, r1] =>
    simp only [lwjglIgnoreCond, Bool.and_eq_true]
    constructor
    · rintro ⟨⟨halw, hact⟩, hos⟩
      refine ⟨r0, r1, rfl, halw, ?_, ?_⟩
      · rcases ha : r1.action with _ | _
        · rw [ha] at hact; cases hact
        · rfl
      · rcases ho : r1.os with _ | o
        · rw [ho] at hos; cases hos
        · rw [ho] at hos; exact ⟨o, rfl, hos⟩
    · rintro ⟨r0x, r1x, heq, halw, hact, o, ho, honame⟩
      rw [List.cons.injEq, List.cons.injEq] at heq
      obtain ⟨h0, h1, -⟩ := heq
      cases h0; cases h1
      refine ⟨⟨halw, ?_⟩, ?_⟩
      · rw [hact]
      · rw [ho]; exact honame
  | r0 :: r1 :: r2 :: rest =>
    constructor
    · intro h; cases h
    · rintro ⟨_, _, heq, -⟩; simp at heq

theorem lwjglSkipCond_iff (lib : MojangLibrary) :
    lwjglSkipCond lib = true ↔
      ∃ r0, lib.rules = [r0] ∧ r0.action = .allow ∧
        (∃ o, r0.os = some o ∧ o.name.isSome = true) ∧
        classifierContainsNatives lib = false := by
  unfold lwjglSkipCond
  match hrules : lib.rules with
  | [] =>
    constructor
    · intro h; cases h
    · rintro ⟨_, heq, -⟩; simp at heq
  | [r0] =>
    simp only [Bool.and_eq_true]
    constructor
    · rintro ⟨⟨hact, hos⟩, hnat⟩
      refine ⟨r0, rfl, ?_, ?_, ?_⟩
      · rcases ha : r0.action with _ | _
        · rfl
        · rw [ha] at hact; cases hact
      · rcases ho : r0.os with _ | o
        · rw [ho] at hos; cases hos
        · rw [ho] at hos; exact ⟨o, rfl, hos⟩
      · rcases hc : classifierContainsNatives lib with _ | _
        · rfl
        · rw [hc] at hnat; cases hnat
    · rintro ⟨r0x, heq, hact, ⟨o, ho, honame⟩, hnat⟩
      rw [List.cons.injEq] at heq
      obtain ⟨h0, -⟩ := heq
      cases h0
      refine ⟨⟨?_, ?_⟩, ?_⟩
      · rw [hact]
      · rw [ho]; exact honame
      · rw [hnat]; rfl
  | r0 :: r1 :: rest =>
    constructor
    · intro h; cases h
    · rintro ⟨_, heq, -⟩; simp at heq

/-- C8: for a library of the `org.lwjgl` family (with a non-log4j artifact
name, so the patcher does not apply):
(i) when its rule list is an unconditional Allow followed by a Disallow naming
one OS, the rules are ignored entirely — processing succeeds and places the
library on the classpath unconditionally (an `All` entry, no platform and no
rule evaluation);
(ii) when its rule list is a single Allow naming one OS and its own coordinate
is not a natives-classifier artifact, the library is dropped entirely — the
state is unchanged except for the `is_lwjgl3` flag;
(iii)/(iv) the two carve-out guards hold exactly for those two rule shapes
and no others. -/
theorem lwjgl_carveouts_spec :
    (∀ (inR : String → Bool) (st : ProcState) (lib : MojangLibrary)
       (a : MojangLibraryArtifact),
      isLwjglGroup lib = true →
      strContainsSub lib.name.artifact "log4j" = false →
      lwjglIgnoreCond lib.rules = true →
      lib.downloads.artifact = some a →
      containsKey st.downloads lib.name = false →
      lib.natives = [] →
      processLibrary inR st lib = .ok
        { classpath := indexSetInsert st.classpath (.all lib.name),
          natives := st.natives,
          downloads := st.downloads ++ [(lib.name, mkDownload lib.name a)],
          is_lwjgl3 := st.is_lwjgl3 ||
            (isLwjglGroup lib && strStartsWith lib.name.version "3.") }) ∧
    (∀ (inR : String → Bool) (st : ProcState) (lib : MojangLibrary),
      isLwjglGroup lib = true →
      strContainsSub lib.name.artifact "log4j" = false →
      lwjglSkipCond lib = true →
      processLibrary inR st lib = .ok { st with
        is_lwjgl3 := st.is_lwjgl3 ||
          (isLwjglGroup lib && strStartsWith lib.name.version "3.") }) ∧
    (∀ rules : List Rule, lwjglIgnoreCond rules = true ↔
      ∃ r0 r1, rules = [r0, r1] ∧ r0.is_always_allow = true ∧ r1.action = .disallow ∧
        ∃ o, r1.os = some o ∧ o.name.isSome = true) ∧
    (∀ lib : MojangLibrary, lwjglSkipCond lib = true ↔
      ∃ r0, lib.rules = [r0] ∧ r0.action = .allow ∧
        (∃ o, r0.os = some o ∧ o.name.isSome = true) ∧
        classifierContainsNatives lib = false) := by
  refine ⟨?_, ?_, lwjglIgnoreCond_iff, lwjglSkipCond_iff⟩
  · intro inR st lib a hg hlog hig hart hkey hnat
    obtain ⟨r0, r1, hrules, halw, -⟩ := (lwjglIgnoreCond_iff lib.rules).mp hig
    have hshape : rulesShapeOk lib.rules = true := by
      rw [hrules]
      simp [rulesShapeOk, halw]
    have hskip : lwjglSkipCond lib = false := by
      unfold lwjglSkipCond
      rw [hrules]
    unfold processLibrary
    rw [hshape]
    simp only [Bool.true_eq_false, if_false]
    rw [patchLog4j_not_log4j inR lib hlog]
    simp only [hg, hskip, Bool.and_false, Bool.true_and, Bool.false_eq_true, if_false]
    have hplat : computePlatform (lwjglIgnoreCond lib.rules) lib = .ok none := by
      unfold computePlatform
      rw [if_pos (by rw [hig]; simp)]
    have hadd : addArtifact st.downloads st.classpath lib none =
        .ok (st.downloads ++ [(lib.name, mkDownload lib.name a)],
          indexSetInsert st.classpath (.all lib.name)) := by
      unfold addArtifact
      simp only [hart]
      rw [add_download_absent hkey]
    simp only [hplat, hadd, hnat, List.foldlM_nil, exceptPure]
  · intro inR st lib hg hlog hskip
    obtain ⟨r0, hrules, -⟩ := (lwjglSkipCond_iff lib).mp hskip
    have hshape : rulesShapeOk lib.rules = true := by
      rw [hrules]
      simp [rulesShapeOk]
    unfold processLibrary
    rw [hshape]
    simp only [Bool.true_eq_false, if_false]
    rw [patchLog4j_not_log4j inR lib hlog]
    simp only [hg, hskip, Bool.and_true, Bool.true_and, if_true]

/-- An LWJGL library with the allow-then-disallow-osx rule pair, used to
instantiate the C8 theorem. -/
def wLwjglIgnoreLib : MojangLibrary :=
  { name := { group := "org.lwjgl", artifact := "lwjgl", version := "3.3.1",
              classifier := none, extension := "jar" },
    downloads := { artifact := some { path := "p", sha1 := "h", size := 1, url := "u" },
                   classifiers := [] },
    rules := [{ features := none, os := none, action := .allow },
              { features := none,
                os := some { name := some .osx, version := none, arch := none },
                action := .disallow }],
    extract := { exclude := [] },
    natives := [] }

/-- An OS-restricted non-natives LWJGL library, used to instantiate the C8
theorem. -/
def wLwjglSkipLib : MojangLibrary :=
  { name := { group := "org.lwjgl", artifact := "lwjgl-platform", version := "2.9.1",
              classifier := none, extension := "jar" },
    downloads := { artifact := some { path := "p", sha1 := "h", size := 1, url := "u" },
                   classifiers := [] },
    rules := [{ features := none,
                os := some { name := some .linux, version := none, arch := none },
                action := .allow }],
    extract := { exclude := [] },
    natives := [] }

/-- The initial state of the library loop (scoped to one descriptor). -/
def initialProcState : ProcState :=
  { classpath := [], natives := [], downloads := [], is_lwjgl3 := false }

/-- Concrete instantiation of `lwjgl_carveouts_spec`: the allow-then-disallow
LWJGL library lands unconditionally on the classpath, and the OS-restricted
LWJGL library is dropped (only the `is_lwjgl3` flag changes). -/
theorem lwjgl_carveouts_spec_witness :
    processLibrary (fun _ => false) initialProcState wLwjglIgnoreLib = .ok
      { classpath := indexSetInsert initialProcState.classpath (.all wLwjglIgnoreLib.name),
        natives := initialProcState.natives,
        downloads := initialProcState.downloads ++
          [(wLwjglIgnoreLib.name,
            mkDownload wLwjglIgnoreLib.name { path := "p", sha1 := "h", size := 1, url := "u" })],
        is_lwjgl3 := initialProcState.is_lwjgl3 ||
          (isLwjglGroup wLwjglIgnoreLib &&
            strStartsWith wLwjglIgnoreLib.name.version "3.") } ∧
    processLibrary (fun _ => false) initialProcState wLwjglSkipLib = .ok
      { initialProcState with
        is_lwjgl3 := initialProcState.is_lwjgl3 ||
          (isLwjglGroup wLwjglSkipLib && strStartsWith wLwjglSkipLib.name.version "3.") } :=
  ⟨lwjgl_carveouts_spec.1 (fun _ => false) initialProcState wLwjglIgnoreLib
      { path := "p", sha1 := "h", size := 1, url := "u" }
      (by decide) (by decide) (by decide) (by decide) (by decide) (by decide),
   lwjgl_carveouts_spec.2.1 (fun _ => false) initialProcState wLwjglSkipLib
      (by decide) (by decide) (by decide)⟩

theorem patchLog4jChanged_group (lib : MojangLibrary) (v1 : String) (lib' : MojangLibrary)
    (h : patchLog4jChanged lib v1 = .ok lib') : lib'.name.group = lib.name.group := by
  unfold patchLog4jChanged at h
  split at h
  · cases h; rfl
  · split at h
    · cases h
    · cases h; rfl

theorem patchLog4j_group (inR : String → Bool) (lib lib' : MojangLibrary)
    (h : patchLog4j inR lib = .ok lib') : lib'.name.group = lib.name.group := by
  unfold patchLog4j at h
  split at h
  · cases h; rfl
  · split at h
    · exact patchLog4jChanged_group _ _ _ h
    · split at h
      · exact patchLog4jChanged_group _ _ _ h
      · cases h; rfl

theorem processLibrary_is_lwjgl3 (inR : String → Bool) (st : ProcState)
    (lib : MojangLibrary) (st' : ProcState)
    (hlug : ¬(isLwjglGroup lib = true ∧ strContainsSub lib.name.artifact "log4j" = true))
    (h : processLibrary inR st lib = .ok st') :
    st'.is_lwjgl3 = (st.is_lwjgl3 ||
      (isLwjglGroup lib && strStartsWith lib.name.version "3.")) := by
  unfold processLibrary at h
  split at h
  · cases h
  · split at h
    · cases h
    · rename_i library heq
      have hflag : (isLwjglGroup library && strStartsWith library.name.version "3.") =
          (isLwjglGroup lib && strStartsWith lib.name.version "3.") := by
        by_cases hg : isLwjglGroup lib = true
        · have hcontains : strContainsSub lib.name.artifact "log4j" = false := by
            cases hc : strContainsSub lib.name.artifact "log4j"
            · rfl
            · exact absurd ⟨hg, hc⟩ hlug
          rw [patchLog4j_not_log4j inR lib hcontains] at heq
          cases heq
          rfl
        · have hg0 : isLwjglGroup lib = false := by
            rwa [Bool.not_eq_true] at hg
          have hg2 : isLwjglGroup library = false := by
            unfold isLwjglGroup at hg0 ⊢
            rw [patchLog4j_group inR lib library heq]
            exact hg0
          rw [hg2, hg0, Bool.false_and, Bool.false_and]
      split at h
      · cases h
        simp only [hflag]
      · split at h
        · cases h
        · split at h
          · cases h
          · split at h
            · cases h
            · cases h
              simp only [hflag]

theorem processLibraries_is_lwjgl3 (inR : String → Bool) (libs : List MojangLibrary) :
    ∀ (st st' : ProcState),
      (∀ lib ∈ libs,
        ¬(isLwjglGroup lib = true ∧ strContainsSub lib.name.artifact "log4j" = true)) →
      processLibraries inR st libs = .ok st' →
      st'.is_lwjgl3 = (st.is_lwjgl3 ||
        libs.any (fun lib => isLwjglGroup lib && strStartsWith lib.name.version "3.")) := by
  induction libs with
  | nil =>
    intro st st' hl h
    rw [processLibraries, List.foldlM_nil] at h
    cases h
    simp
  | cons lib rest ih =>
    intro st st' hl h
    rw [processLibraries, List.foldlM_cons] at h
    rcases hs : processLibrary inR st lib with e | st1
    · rw [hs, exceptBindError] at h
      cases h
    · rw [hs, exceptBindOk] at h
      have h1 := processLibrary_is_lwjgl3 inR st lib st1 (hl lib (by simp)) hs
      have h2 := ih st1 st' (fun l hm => hl l (by simp [hm])) h
      rw [h2, h1, List.any_cons, Bool.or_assoc]

/-- C10: for every successfully processed library list (with no library that
is both of the `org.lwjgl` group and a log4j-named artifact, so the patcher
cannot alter an LWJGL version), the trait set built after the library loop
contains `MacStartOnFirstThread` exactly when some library of the descriptor
has a group starting with `"org.lwjgl"` and a version starting with `"3."` —
including libraries the LWJGL carve-outs skip or rule-bypass, since the flag
is set before either carve-out applies. -/
theorem lwjgl3_trait_spec (inR : String → Bool) (st0 : ProcState)
    (libs : List MojangLibrary) (st' : ProcState)
    (h0 : st0.is_lwjgl3 = false)
    (hl : ∀ lib ∈ libs,
      ¬(isLwjglGroup lib = true ∧ strContainsSub lib.name.artifact "log4j" = true))
    (h : processLibraries inR st0 libs = .ok st') :
    Trait.macStartOnFirstThread ∈ componentTraits st'.is_lwjgl3 ↔
      ∃ lib ∈ libs, strStartsWith lib.name.group "org.lwjgl" = true ∧
        strStartsWith lib.name.version "3." = true := by
  have hinv := processLibraries_is_lwjgl3 inR libs st0 st' hl h
  rw [h0, Bool.false_or] at hinv
  constructor
  · intro hmem
    rcases hb : st'.is_lwjgl3 with _ | _
    · rw [hb] at hmem
      simp [componentTraits] at hmem
    · rw [hb] at hinv
      obtain ⟨lib, hm, hflag⟩ := List.any_eq_true.mp hinv.symm
      rw [Bool.and_eq_true] at hflag
      exact ⟨lib, hm, hflag.1, hflag.2⟩
  · rintro ⟨lib, hm, hg, hv⟩
    have hany : libs.any
        (fun l => isLwjglGroup l && strStartsWith l.name.version "3.") = true :=
      List.any_eq_true.mpr ⟨lib, hm, by unfold isLwjglGroup; rw [hg, hv]; rfl⟩
    rw [hinv, hany]
    simp [componentTraits]

/-- A minimal LWJGL 3 library (no rules, no artifact, no natives), used to
instantiate the C10 theorem. -/
def wTraitLib : MojangLibrary :=
  { name := { group := "org.lwjgl", artifact := "lwjgl", version := "3.3.1",
              classifier := none, extension := "jar" },
    downloads := { artifact := none, classifiers := [] },
    rules := [],
    extract := { exclude := [] },
    natives := [] }

/-- The state after processing `[wTraitLib]` from the initial state. -/
def wTraitSt : ProcState :=
  { classpath := [], natives := [], downloads := [], is_lwjgl3 := true }

/-- Concrete instantiation of `lwjgl3_trait_spec`: processing the single
LWJGL 3 library yields a state whose trait set contains
`MacStartOnFirstThread` exactly when some library is an LWJGL 3 one. -/
theorem lwjgl3_trait_spec_witness :
    Trait.macStartOnFirstThread ∈ componentTraits wTraitSt.is_lwjgl3 ↔
      ∃ lib ∈ [wTraitLib], strStartsWith lib.name.group "org.lwjgl" = true ∧
        strStartsWith lib.name.version "3." = true :=
  lwjgl3_trait_spec (fun _ => false) initialProcState [wTraitLib] wTraitSt
    (by decide) (by decide) (by decide)

/-! ### Batch processing and the index (`process` in `src/mojang.rs`) -/

/-- `ComponentDependency` from `helixlauncher-meta/src/component.rs`. -/
structure ComponentDependency where
  id : String
  version : Option String
deriving DecidableEq, Repr

/-- The fields of a processed component that the index builder reads
(`From<Component> for IndexEntry` in `helixlauncher-meta/src/index.rs`);
release times are embedded as integers, since chrono `DateTime<Utc>` values
are totally ordered. -/
structure Component where
  version : String
  release_time : Int
  requires : List ComponentDependency
  conflicts : List ComponentDependency
deriving DecidableEq, Repr

/-- `IndexEntry` from `helixlauncher-meta/src/index.rs`. -/
structure IndexEntry where
  version : String
  release_time : Int
  conflicts : List ComponentDependency
  requires : List ComponentDependency
deriving DecidableEq, Repr

/-- `From<Component> for IndexEntry` from `helixlauncher-meta/src/index.rs`. -/
def componentToIndexEntry (c : Component) : IndexEntry :=
  { version := c.version, release_time := c.release_time,
    conflicts := c.conflicts, requires := c.requires }

/-- One insertion step of the embedding of
`index.sort_by(|x, y| y.release_time.cmp(&x.release_time))`: `x` is placed
before the first element strictly older than it, hence after every earlier
element it ties with. -/
def insertEntry (x : IndexEntry) : List IndexEntry → List IndexEntry
  | [] => [x]
  | y :: ys =>
    if x.release_time ≤ y.release_time then y :: insertEntry x ys else x :: y :: ys

/-- `index.sort_by(|x, y| y.release_time.cmp(&x.release_time))` from
`process` in `src/mojang.rs`, embedded as a stable insertion sort with the
same comparator.  Rust `sort_by` is a stable sort, and a stable sort by a
total comparator is extensionally unique, so any stable implementation is the
same function. -/
def sortIndex (idx : List IndexEntry) : List IndexEntry :=
  idx.foldl (fun acc x => insertEntry x acc) []

/-- The `for file in fs::read_dir(...)` loop of `process` in `src/mojang.rs`,
with each file's `process_version` outcome abstracted as an input: a failure
is wrapped with the `with_context` message naming the file and propagated by
`?`, aborting the loop; successes accumulate index entries in file order. -/
def processBatchGo : List (String × Except String Component) → List IndexEntry →
    Except String (List IndexEntry)
  | [], acc => .ok acc
  | (fname, r) :: rest, acc =>
    match r with
    | .error e => .error ("Failed to process " ++ fname ++ ": " ++ e)
    | .ok component => processBatchGo rest (acc ++ [componentToIndexEntry component])

/-- `process` from `src/mojang.rs`: the batch loop followed by the sort. -/
def processBatch (files : List (String × Except String Component)) :
    Except String (List IndexEntry) :=
  match processBatchGo files [] with
  | .error e => .error e
  | .ok idx => .ok (sortIndex idx)

theorem mem_insertEntry {z x : IndexEntry} {l : List IndexEntry} :
    z ∈ insertEntry x l ↔ z = x ∨ z ∈ l := by
  induction l with
  | nil => simp [insertEntry]
  | cons y ys ih =>
    unfold insertEntry
    split
    · simp only [List.mem_cons, ih]
      tauto
    · simp only [List.mem_cons]

theorem pairwise_insertEntry {x : IndexEntry} {l : List IndexEntry}
    (h : l.Pairwise (fun a b => b.release_time ≤ a.release_time)) :
    (insertEntry x l).Pairwise (fun a b => b.release_time ≤ a.release_time) := by
  induction l with
  | nil => simp [insertEntry]
  | cons y ys ih =>
    rw [List.pairwise_cons] at h
    obtain ⟨hy, hys⟩ := h
    unfold insertEntry
    split
    · rename_i hle
      rw [List.pairwise_cons]
      constructor
      · intro z hz
        rcases mem_insertEntry.mp hz with rfl | hz2
        · exact hle
        · exact hy z hz2
      · exact ih hys
    · rename_i hgt
      rw [List.pairwise_cons]
      constructor
      · intro z hz
        rcases List.mem_cons.mp hz with rfl | hz2
        · exact le_of_not_le hgt
        · exact le_trans (hy z hz2) (le_of_not_le hgt)
      · exact List.pairwise_cons.mpr ⟨hy, hys⟩

theorem perm_insertEntry (x : IndexEntry) (l : List IndexEntry) :
    (insertEntry x l).Perm (x :: l) := by
  induction l with
  | nil => exact List.Perm.refl _
  | cons y ys ih =>
    unfold insertEntry
    split
    · exact (ih.cons y).trans (List.Perm.swap x y ys)
    · exact List.Perm.refl _

theorem foldl_insertEntry_pairwise (l : List IndexEntry) :
    ∀ acc, acc.Pairwise (fun a b => b.release_time ≤ a.release_time) →
      (l.foldl (fun a x => insertEntry x a) acc).Pairwise
        (fun a b => b.release_time ≤ a.release_time) := by
  induction l with
  | nil => intro acc h; simpa using h
  | cons x xs ih =>
    intro acc h
    rw [List.foldl_cons]
    exact ih _ (pairwise_insertEntry h)

theorem foldl_insertEntry_perm (l : List IndexEntry) :
    ∀ acc, (l.foldl (fun a x => insertEntry x a) acc).Perm (acc ++ l) := by
  induction l with
  | nil => intro acc; simp
  | cons x xs ih =>
    intro acc
    rw [List.foldl_cons]
    refine (ih (insertEntry x acc)).trans ?_
    refine (((perm_insertEntry x acc).append_right xs).trans ?_)
    exact List.perm_middle.symm

theorem sortIndex_pairwise (idx : List IndexEntry) :
    (sortIndex idx).Pairwise (fun a b => b.release_time ≤ a.release_time) :=
  foldl_insertEntry_pairwise idx [] (by simp)

theorem sortIndex_perm (idx : List IndexEntry) : (sortIndex idx).Perm idx := by
  have h := foldl_insertEntry_perm idx []
  simpa [sortIndex] using h

theorem processBatchGo_ok :
    ∀ (files : List (String × Except String Component)) (comps : List Component)
      (acc : List IndexEntry),
      files.map Prod.snd = comps.map Except.ok →
      processBatchGo files acc = .ok (acc ++ comps.map componentToIndexEntry) := by
  intro files
  induction files with
  | nil =>
    intro comps acc h
    rw [List.map_nil, eq_comm, List.map_eq_nil_iff] at h
    subst h
    simp [processBatchGo]
  | cons p rest ih =>
    intro comps acc h
    rcases p with ⟨fname, r⟩
    rcases comps with _ | ⟨c, cs⟩
    · simp at h
    · simp only [List.map_cons, List.cons.injEq] at h
      obtain ⟨hr, hrest⟩ := h
      subst hr
      show processBatchGo rest (acc ++ [componentToIndexEntry c]) =
        .ok (acc ++ (c :: cs).map componentToIndexEntry)
      rw [ih cs _ hrest]
      simp

theorem processBatchGo_error :
    ∀ (pre : List (String × Except String Component)) (fname e : String)
      (rest : List (String × Except String Component)) (acc : List IndexEntry),
      (∀ p ∈ pre, ∃ c, p.2 = Except.ok c) →
      processBatchGo (pre ++ (fname, Except.error e) :: rest) acc =
        .error ("Failed to process " ++ fname ++ ": " ++ e) := by
  intro pre
  induction pre with
  | nil => intro fname e rest acc h; rfl
  | cons p ps ih =>
    intro fname e rest acc h
    rcases p with ⟨f0, r0⟩
    obtain ⟨c, hc⟩ := h (f0, r0) (by simp)
    simp only at hc
    subst hc
    rw [List.cons_append]
    unfold processBatchGo
    exact ih fname e rest _ (fun p hp => h p (by simp [hp]))

/-- A first processed component with release time 5. -/
def cexComponent1 : Component :=
  { version := "1.0", release_time := 5, requires := [], conflicts := [] }

/-- A second, distinct processed component with the same release time 5. -/
def cexComponent2 : Component :=
  { version := "2.0", release_time := 5, requires := [], conflicts := [] }

/-- C9 counterexample: in a two-file batch whose first file fails, `process`
returns the error (with context naming the file) instead of an index — the
remaining version is not processed and the claimed one-entry-per-success
index does not exist; moreover a batch of two successes with equal release
times yields an index that is sorted only non-strictly (two distinct entries
with equal release times), so the index is not strictly descending. -/
theorem process_batch_counterexample :
    processBatch [("a.json", .error "boom"), ("b.json", .ok cexComponent1)] =
      .error "Failed to process a.json: boom" ∧
    processBatch [("a.json", .ok cexComponent1), ("b.json", .ok cexComponent2)] =
      .ok [componentToIndexEntry cexComponent1, componentToIndexEntry cexComponent2] ∧
    (componentToIndexEntry cexComponent1).release_time =
      (componentToIndexEntry cexComponent2).release_time ∧
    componentToIndexEntry cexComponent1 ≠ componentToIndexEntry cexComponent2 :=
  ⟨by decide, by decide, by decide, by decide⟩

/-- C9 amended: the failure of one version aborts the batch and is reported
with context identifying which version file failed (every earlier file having
succeeded); when every version succeeds, the resulting index contains exactly
one entry per version, sorted by release time in non-increasing order (ties
keeping first-seen order), and is a permutation of the per-version entries. -/
theorem process_batch_amended :
    (∀ (files : List (String × Except String Component)) (comps : List Component),
      files.map Prod.snd = comps.map Except.ok →
      processBatch files = .ok (sortIndex (comps.map componentToIndexEntry)) ∧
      (sortIndex (comps.map componentToIndexEntry)).length = files.length ∧
      (sortIndex (comps.map componentToIndexEntry)).Pairwise
        (fun x y => y.release_time ≤ x.release_time) ∧
      (sortIndex (comps.map componentToIndexEntry)).Perm
        (comps.map componentToIndexEntry)) ∧
    (∀ (pre : List (String × Except String Component)) (fname e : String)
       (rest : List (String × Except String Component)),
      (∀ p ∈ pre, ∃ c, p.2 = Except.ok c) →
      processBatch (pre ++ (fname, Except.error e) :: rest) =
        .error ("Failed to process " ++ fname ++ ": " ++ e)) := by
  constructor
  · intro files comps h
    have hgo := processBatchGo_ok files comps [] h
    rw [List.nil_append] at hgo
    refine ⟨?_, ?_, sortIndex_pairwise _, sortIndex_perm _⟩
    · unfold processBatch
      rw [hgo]
    · rw [(sortIndex_perm (comps.map componentToIndexEntry)).length_eq, List.length_map]
      have hlen : files.length = comps.length := by
        have h2 := congrArg List.length h
        simpa using h2
      exact hlen.symm
  · intro pre fname e rest h
    unfold processBatch
    rw [processBatchGo_error pre fname e rest [] h]

/-- Concrete instantiation of `process_batch_amended`: a two-success batch
produces a two-entry index, sorted non-increasingly and a permutation of the
per-version entries. -/
theorem process_batch_amended_witness :
    processBatch [("a.json", Except.ok cexComponent1), ("c.json", Except.ok cexComponent2)] =
      .ok (sortIndex ([cexComponent1, cexComponent2].map componentToIndexEntry)) ∧
    (sortIndex ([cexComponent1, cexComponent2].map componentToIndexEntry)).length =
      ([("a.json", Except.ok cexComponent1),
        ("c.json", Except.ok cexComponent2)] : List (String × Except String Component)).length ∧
    (sortIndex ([cexComponent1, cexComponent2].map componentToIndexEntry)).Pairwise
      (fun x y => y.release_time ≤ x.release_time) ∧
    (sortIndex ([cexComponent1, cexComponent2].map componentToIndexEntry)).Perm
      ([cexComponent1, cexComponent2].map componentToIndexEntry) :=
  process_batch_amended.1 _ [cexComponent1, cexComponent2] (by decide)

end HelixMeta
